import Mathlib

/-!
A shallow embedding of the InSAR pipeline orchestrator
(`src/code/main_parallel.py` together with the boundary behavior of its two
download collaborators `modules/get_dem.py` and `modules/get_orbit.py`).

Modelling conventions:
* Filesystem paths are lists of components (`FPath`); all paths are taken to be
  absolute and the project root is the abstract location `root/proj`, standing
  for the `os.path.dirname(os.path.abspath(__file__))`-derived prefix.
* The filesystem is an association list from paths to entries.  A symbolic
  link stores the relative target string that `os.symlink` received, exactly
  as the code computes it via `os.path.relpath`.  `os.path.exists` follows
  final-component symlink chains with a fuel bound, returning false when the
  fuel runs out, mirroring the `ELOOP → False` behavior of `os.path.exists`.
* External effects (the OpenTopography download inside `download_dem`, the
  `dloadOrbits` invocation inside `download_orbit`, the `topsApp.py`
  subprocess and wall-clock timing) are oracles supplied in an environment
  record; the orchestration logic around them is translated from the source.
* Machine text is `String`; Python `str.split`, slicing and `str.strip`
  translate to the corresponding total `String`/`List Char` operations.
-/

/-- A filesystem path, as a list of components (absolute, `/`-rooted). -/
abbrev FPath := List String

/-- A filesystem entry: a regular file with (opaque) contents, a directory, or
a symbolic link storing its relative target as a component list. -/
inductive Entry : Type where
  | file (contents : String)
  | dir
  | symlink (target : List String)
deriving DecidableEq

/-- The filesystem: an association list from paths to entries. -/
abbrev FSys := List (FPath × Entry)

/-- Look up the entry stored at a path (first match wins). -/
def lookupFS : FSys → FPath → Option Entry
  | [], _ => none
  | (q, e) :: t, p => if q = p then some e else lookupFS t p

/-- Remove the entry stored at a path (`os.remove`; the caller must ensure the
entry is not a directory). -/
def removeFS : FSys → FPath → FSys
  | [], _ => []
  | (q, e) :: t, p => if q = p then removeFS t p else (q, e) :: removeFS t p

/-- Store an entry at a path, replacing any previous one. -/
def insertFS (fs : FSys) (p : FPath) (e : Entry) : FSys :=
  (p, e) :: removeFS fs p

/-- `os.path.dirname` on component lists. -/
def dirnameP (p : FPath) : FPath := p.dropLast

/-- `os.path.basename` on component lists. -/
def lastComp (p : FPath) : String := p.getLastD ""

/-- Length of the longest common prefix of two component lists. -/
def commonPrefixLen : List String → List String → Nat
  | a :: as, b :: bs => if a = b then commonPrefixLen as bs + 1 else 0
  | _, _ => 0

/-- `os.path.relpath path start` for normalized absolute component lists:
walk up out of `start` to the common prefix, then down into `path`. -/
def relpathP (path start : FPath) : List String :=
  let k := commonPrefixLen path start
  List.replicate (start.length - k) ".." ++ path.drop k

/-- Resolve a relative component list against a base directory, interpreting
`..` as popping one component. -/
def resolveRel (base : FPath) (rel : List String) : FPath :=
  rel.foldl (fun acc c => if c = ".." then acc.dropLast else acc ++ [c]) base

/-- Follow final-component symlinks for at most `fuel` hops and return the
entry reached, or `none` for a missing entry or exhausted fuel. -/
def resolveE (fs : FSys) : Nat → FPath → Option Entry
  | 0, _ => none
  | fuel + 1, p =>
    match lookupFS fs p with
    | some (Entry.symlink t) => resolveE fs fuel (resolveRel (dirnameP p) t)
    | e => e

/-- `os.path.exists`: true when the path resolves (through symlinks) to an
existing entry; symlink loops exhaust the fuel and yield false (`ELOOP`). -/
def existsFS (fs : FSys) (p : FPath) : Bool :=
  (resolveE fs (fs.length + 1) p).isSome

/-- `os.path.lexists`: true when the path itself holds an entry, without
following a final symlink. -/
def lexistsFS (fs : FSys) (p : FPath) : Bool :=
  (lookupFS fs p).isSome

/-- The outcome of a Python call: a returned value, or a raised exception
carrying a message. -/
inductive PyResult (α : Type) : Type where
  | ok (a : α)
  | exn (msg : String)
deriving DecidableEq

/-- `atomic_link(src, dst)` from `main_parallel.py`:
return `false` when the source does not exist; otherwise remove whatever
occupies the destination (`os.remove` raises when it is a directory, and that
exception escapes the function since only the symlink-creation step sits in a
`try`), then create a relative symlink; creation failures (missing or
non-directory parent) are caught and reported as `false`. -/
def atomic_link (src dst : FPath) (fs : FSys) : PyResult (Bool × FSys) :=
  if ¬ existsFS fs src then .ok (false, fs)
  else
    match lookupFS fs dst with
    | some Entry.dir => .exn "IsADirectoryError"
    | other =>
      let fs1 := if other.isSome then removeFS fs dst else fs
      match lookupFS fs1 (dirnameP dst) with
      | some Entry.dir =>
        let rel := relpathP src (dirnameP dst)
        .ok (true, insertFS fs1 dst (Entry.symlink rel))
      | _ => .ok (false, fs1)

-- Sanity checks on the filesystem model (concrete evaluation).
example :
    atomic_link ["a", "s"] ["b", "d"]
      [(["a", "s"], Entry.file "x"), (["b"], Entry.dir)] =
    .ok (true,
      [(["b", "d"], Entry.symlink ["..", "a", "s"]),
       (["a", "s"], Entry.file "x"), (["b"], Entry.dir)]) := by decide

example : existsFS [(["a", "s"], Entry.file "x")] ["a", "s"] = true := by decide

example : existsFS [(["a", "b"], Entry.symlink ["b"]), (["a"], Entry.dir)]
    ["a", "b"] = false := by decide

/-! ## Directory layout constants

`CODE_DIR`/`PROJECT_ROOT` derive from `__file__`; we fix the abstract
absolute location `root/proj` for the project root. -/

def PROJECT_ROOT_P : FPath := ["root", "proj"]

def RAW_P : FPath := PROJECT_ROOT_P ++ ["data", "raw"]

def DEM_P : FPath := PROJECT_ROOT_P ++ ["data", "dem"]

def ORBIT_P : FPath := PROJECT_ROOT_P ++ ["data", "orbit_data"]

def RUNS_P : FPath := PROJECT_ROOT_P ++ ["data", "runs"]

/-- `DEM_DIR` as the string the orchestrator concatenates file names onto. -/
def DEM_DIR_S : String := "/root/proj/data/dem"

/-! ## Python string primitives used by the parsers

These are structurally recursive `List Char` translations of the Python
`str` operations the orchestrator uses (the core `String` versions are
defined by well-founded recursion, which blocks concrete evaluation). -/

/-- Split on a single separator character, keeping empty pieces — Python
`str.split(sep)` for a one-character separator. -/
def splitOnChar (sep : Char) : List Char → List (List Char)
  | [] => [[]]
  | c :: t =>
    let r := splitOnChar sep t
    if c = sep then [] :: r
    else
      match r with
      | h :: t2 => (c :: h) :: t2
      | [] => [[c]]

/-- Python `s.split(sep)` for a one-character separator, as strings. -/
def pySplitOn (s : String) (sep : Char) : List String :=
  (splitOnChar sep s.data).map (fun l => ⟨l⟩)

/-- Python slicing `s[:n]` (total: short strings are returned whole). -/
def pyTake (s : String) (n : Nat) : String := ⟨s.data.take n⟩

/-- Python `str.strip()` with no argument: trim surrounding whitespace. -/
def pyTrim (s : String) : String :=
  ⟨(s.data.dropWhile Char.isWhitespace).reverse.dropWhile Char.isWhitespace
    |>.reverse⟩

/-- Replace every occurrence of one character by another — Python
`str.replace(a, b)` for one-character arguments. -/
def pyReplaceChar (s : String) (a b : Char) : String :=
  ⟨s.data.map (fun c => if c = a then b else c)⟩

/-- Convert a path string to components (absolute paths; empty components from
leading or doubled separators are dropped, as `os.path` normalizes them). -/
def toFPath (s : String) : FPath :=
  (pySplitOn s '/').filter (fun c => c ≠ "")

/-- Python `str.lstrip(c)`: drop every leading occurrence of `c`. -/
def pyLStripChar (s : String) (c : Char) : String :=
  ⟨s.data.dropWhile (fun x => x = c)⟩

/-- Python `str.rstrip(c)`: drop every trailing occurrence of `c`. -/
def pyRStripChar (s : String) (c : Char) : String :=
  ⟨(s.data.reverse.dropWhile (fun x => x = c)).reverse⟩

/-- Python `str.strip(c)`: both sides. -/
def pyStripChar (s : String) (c : Char) : String :=
  pyRStripChar (pyLStripChar s c) c

/-- Split at every character satisfying the predicate, keeping empty pieces. -/
def splitWhenChar (p : Char → Bool) : List Char → List (List Char)
  | [] => [[]]
  | c :: t =>
    let r := splitWhenChar p t
    if p c then [] :: r
    else
      match r with
      | h :: t2 => (c :: h) :: t2
      | [] => [[c]]

/-- Python `str.split()` with no argument: split on whitespace runs, dropping
empty tokens. -/
def pySplitWS (s : String) : List String :=
  ((splitWhenChar Char.isWhitespace s.data).map (fun l => (⟨l⟩ : String))).filter
    (fun p => p ≠ "")

/-! ## `get_s1_date`: regex search for `(\d{8})T\d{6}` -/

/-- Try the pattern `(\d{8})T\d{6}` anchored at the head of the character
list, returning the eight captured digits. -/
def dateMatchAt (cs : List Char) : Option String :=
  let d8 := cs.take 8
  if d8.length = 8 && d8.all Char.isDigit then
    match cs.drop 8 with
    | 'T' :: rest =>
      if (rest.take 6).length = 6 && (rest.take 6).all Char.isDigit then
        some ⟨d8⟩
      else none
    | _ => none
  else none

/-- `re.search`: leftmost position where the date pattern matches. -/
def searchDate : List Char → Option String
  | [] => none
  | c :: t =>
    match dateMatchAt (c :: t) with
    | some d => some d
    | none => searchDate t

/-- `get_s1_date` from `main_parallel.py`: the captured `YYYYMMDD`, or the
placeholder `"UnknownDate"` when the pattern is absent (the `except` branch
returning `"Error"` is unreachable for string input). -/
def get_s1_date (s : String) : String :=
  (searchDate s.data).getD "UnknownDate"

/-! ## `get_date_range_from_pairs` -/

/-- The dates one pair contributes: the first eight characters of the sixth
`_`-separated field of each scene name; an `IndexError` on either name (fewer
than six fields) makes the pair contribute nothing. -/
def pairDates (rs : String × String) : List String :=
  match (pySplitOn rs.1 '_').get? 5, (pySplitOn rs.2 '_').get? 5 with
  | some f1, some f2 => [pyTake f1 8, pyTake f2 8]
  | _, _ => []

/-- All dates collected from all pairs, in traversal order. -/
def datesOfPairs (pairs : List (String × String)) : List String :=
  pairs.foldl (fun acc p => acc ++ pairDates p) []

/-- Lexicographic comparison of character lists by code point — how Python
compares strings when sorting. -/
def charListLe : List Char → List Char → Bool
  | [], _ => true
  | _ :: _, [] => false
  | a :: as, b :: bs =>
    if a.toNat = b.toNat then charListLe as bs
    else decide (a.toNat < b.toNat)

/-- Python string `<=`. -/
def pyStrLe (a b : String) : Bool := charListLe a.data b.data

/-- Insert into a sorted list (ascending by `pyStrLe`). -/
def insertSorted (x : String) : List String → List String
  | [] => [x]
  | y :: t => if pyStrLe x y then x :: y :: t else y :: insertSorted x t

/-- Sorting a string list ascending — the observable effect of Python
`list.sort()` (first/last of the result are the lexical min/max). -/
def pySort : List String → List String
  | [] => []
  | x :: t => insertSorted x (pySort t)

/-- `get_date_range_from_pairs` from `main_parallel.py`: collect, sort, and
return first and last, or `(None, None)` when nothing was collected. -/
def get_date_range_from_pairs (pairs : List (String × String)) :
    Option String × Option String :=
  let dates := datesOfPairs pairs
  if dates.isEmpty then (none, none)
  else
    let sorted := pySort dates
    (sorted.head?, sorted.getLast?)

example :
    get_date_range_from_pairs
      [("S1A_IW_SLC__1SDV_20230203T034221_x.SAFE",
        "S1A_IW_SLC__1SDV_20230110T034221_x.SAFE")] =
    (some "20230110", some "20230203") := by decide

example : get_s1_date "S1A_IW_SLC__1SDV_20230203T034221_x.SAFE" = "20230203" := by
  decide

/-! ## `load_pairs_from_file`: pair-list parsing -/

/-- Characters admitted by the class `[0-9A-Za-zT_\-]` of the scene-identifier
pattern. -/
def safeClassChar (c : Char) : Bool :=
  c.isAlphanum || c = 'T' || c = '_' || c = '-'

/-- Consume an exact literal prefix, returning the remainder. -/
def dropLit : List Char → List Char → Option (List Char)
  | [], cs => some cs
  | l :: ls, c :: cs => if c = l then dropLit ls cs else none
  | _ :: _, [] => none

/-- Try the pattern `S1[AB]_IW_SLC__[0-9A-Za-zT_\-]+\.SAFE` anchored at the
head of the list.  Because `.` is not in the character class, the greedy run
necessarily stops at the first non-class character, where `.SAFE` must follow.
Returns the matched token and the remainder after it. -/
def safeMatchAt (cs : List Char) : Option (List Char × List Char) :=
  match dropLit ['S', '1'] cs with
  | none => none
  | some cs1 =>
    match cs1 with
    | [] => none
    | x :: cs2 =>
      if x = 'A' || x = 'B' then
        match dropLit ['_', 'I', 'W', '_', 'S', 'L', 'C', '_', '_'] cs2 with
        | none => none
        | some cs3 =>
          let run := cs3.takeWhile safeClassChar
          let rest := cs3.dropWhile safeClassChar
          if run.length = 0 then none
          else
            match dropLit ['.', 'S', 'A', 'F', 'E'] rest with
            | none => none
            | some rest2 =>
              some (['S', '1', x, '_', 'I', 'W', '_', 'S', 'L', 'C', '_', '_']
                      ++ run ++ ['.', 'S', 'A', 'F', 'E'], rest2)
      else none

/-- `re.findall` for the scene-identifier pattern: scan left to right,
collecting non-overlapping matches (fuel = list length suffices, since every
step consumes at least one character). -/
def findallSafeGo : Nat → List Char → List String
  | 0, _ => []
  | _, [] => []
  | fuel + 1, c :: t =>
    match safeMatchAt (c :: t) with
    | some (m, rest) => (⟨m⟩ : String) :: findallSafeGo fuel rest
    | none => findallSafeGo fuel t

def findallSafe (s : String) : List String :=
  findallSafeGo s.data.length s.data

/-- Parse one line of the pair list (`load_pairs_from_file` loop body):
skip blanks and `#` comments; accept a line holding exactly two canonical
scene identifiers; otherwise strip parentheses and quotes and split on comma
or whitespace, requiring exactly two tokens.  (The source's
`cleaned.replace('\"', '"')` replaces a double quote by itself — a no-op —
and is modelled as such.) -/
def parseLine (rawLine : String) : Option (String × String) :=
  let line := pyTrim rawLine
  if line = "" || line.data.head? = some '#' then none
  else
    let found := findallSafe line
    match found with
    | [a, b] => some (a, b)
    | _ =>
      let cleaned := pyTrim (pyRStripChar (pyLStripChar (pyTrim line) '(') ')')
      let parts :=
        if cleaned.data.contains ',' then
          ((pySplitOn cleaned ',').filter (fun p => pyTrim p ≠ "")).map
            (fun p => pyStripChar (pyStripChar (pyTrim p) '"') (Char.ofNat 39))
        else
          ((pySplitWS cleaned).filter (fun p => pyTrim p ≠ "")).map
            (fun p => pyStripChar (pyStripChar (pyTrim p) '"') (Char.ofNat 39))
      match parts with
      | [a, b] => some (a, b)
      | _ => none

/-- `load_pairs_from_file`: `[]` when the file does not exist (`content` is
`none`); otherwise parse the lines, skipping malformed ones. -/
def load_pairs_from_file (content : Option String) : List (String × String) :=
  match content with
  | none => []
  | some text =>
    ((pySplitOn text '\n').foldl (fun acc l =>
      match parseLine l with
      | some p => acc ++ [p]
      | none => acc) [])

example :
    load_pairs_from_file
      (some "# comment\nS1A_IW_SLC__1SDV_20230203T034221_X.SAFE S1B_IW_SLC__1SDV_20230215T034221_Y.SAFE\n(a.SAFE, b.SAFE)\nbad line with extra\n") =
    [("S1A_IW_SLC__1SDV_20230203T034221_X.SAFE",
      "S1B_IW_SLC__1SDV_20230215T034221_Y.SAFE"),
     ("a.SAFE", "b.SAFE")] := by decide

/-! ## Module-level configuration: `ROI` parsing

The module executes lines 159–172 at import time: the name `ROI` is **bound
only when** the environment variable is present, truthy, and cleans up to
exactly four float-parsable parts.  In every other case the name stays
undefined, and evaluating `ROI` later raises `NameError`.  Float conversion
itself is an oracle (`floatOk` says whether `float(x)` succeeds); no claim
depends on the numeric values. -/
def parse_roi (roiEnv : Option String) (floatOk : String → Bool) :
    Option (List String) :=
  match roiEnv with
  | none => none
  | some s =>
    if s = "" then none
    else
      let cleaned := pyTrim (pyRStripChar (pyLStripChar (pyTrim s) '[') ']')
      let cleaned := pyReplaceChar (pyReplaceChar cleaned ';' ',') ' ' ','
      let parts := (pySplitOn cleaned ',').filter (fun p => p ≠ "")
      if parts.length = 4 && parts.all floatOk then some parts else none

example : parse_roi (some "[1.0, 2.0, 3.0, 4.0]") (fun _ => true) =
    some ["1.0", "2.0", "3.0", "4.0"] := by decide

example : parse_roi none (fun _ => true) = none := by decide

/-- Python truthiness of an optional string (`None` and `""` are falsy). -/
def pyTruthyStr : Option String → Bool
  | none => false
  | some s => s ≠ ""

/-! ## `run_with_retry` -/

/-- How a `run_with_retry` call ended. -/
inductive RetryResult : Type where
  | returnedTrue
  | fellThrough
  | raised
deriving DecidableEq

/-- Observable trace of one `run_with_retry` call: how many times the
subprocess was invoked, the sleeps performed between attempts, and the
outcome. -/
structure RetryOut : Type where
  invocations : Nat
  sleeps : List Nat
  result : RetryResult
deriving DecidableEq

/-- The `for attempt in range(1, retries + 1)` loop of `run_with_retry`,
recursing on the number of attempts still allowed (`remaining =
retries - attempt + 1`): `succ a` tells whether the subprocess succeeds on
attempt `a`.  A success returns `True`; a failure sleeps `delay` and retries
while attempts remain, and re-raises on the last one.  Falling off the loop
end (only possible when `retries = 0`) returns `None`. -/
def retryLoop (succ : Nat → Bool) (delay : Nat) :
    Nat → Nat → RetryOut
  | 0, _ => ⟨0, [], .fellThrough⟩
  | remaining + 1, attempt =>
    if succ attempt then ⟨1, [], .returnedTrue⟩
    else if remaining = 0 then ⟨1, [], .raised⟩
    else
      let r := retryLoop succ delay remaining (attempt + 1)
      ⟨r.invocations + 1, delay :: r.sleeps, r.result⟩

def run_with_retry (succ : Nat → Bool) (retries delay : Nat) : RetryOut :=
  retryLoop succ delay retries 1

example :
    run_with_retry (fun a => a = 2) 2 3 =
    ⟨2, [3], RetryResult.returnedTrue⟩ := by decide

example :
    run_with_retry (fun _ => false) 2 3 = ⟨2, [3], RetryResult.raised⟩ := by
  decide

/-! ## `prepare_shared_resources`

`download_dem` performs network and GDAL work; its observable boundary (a
returned path or a raised exception, plus the resulting filesystem) is an
oracle.  Likewise `download_orbit` (which never lets its subprocess error
escape) and the final `glob` count of ephemeris files.  `os.path.abspath` is
the identity here since all modelled paths are absolute.  The trace of
`PEvent`s records what the source prints/does on each path. -/

inductive PEvent : Type where
  | demCacheHit
  | demDownloadCalled
  | demDownloadFailed (msg : String)
  | demMetaMissing
  | demReady
  | warnNoKey
  | orbitSkippedNoDate
  | orbitDownloadCalled (startDate endDate : String)
  | warnFewEof (n : Nat)
  | eofReady (n : Nat)
deriving DecidableEq

/-- Environment for one `prepare_shared_resources` call. `roi` is the
module-level `ROI` binding: `none` means the name was never assigned, so
evaluating it raises `NameError`. -/
structure ProvEnv : Type where
  pathExists : String → Bool
  roi : Option (List String)
  apiKey : Option String
  demDownloadResult : PyResult String
  pathExistsAfterDownload : String → Bool
  pairsFile : Option String
  eofCount : Nat

/-- The DEM name `prepare_shared_resources` pieces together. -/
def targetDemOf (customName : String) : String :=
  DEM_DIR_S ++ "/" ++ customName ++ ".wgs84"

/-- The early-exit test of `prepare_shared_resources`: raster and both
companion metadata files already present. -/
def demCachePresent (env : ProvEnv) (customName : String) : Bool :=
  env.pathExists (targetDemOf customName)
    && env.pathExists (targetDemOf customName ++ ".xml")
    && env.pathExists (targetDemOf customName ++ ".vrt")

/-- The events of the orbit sub-phase: date range from the pairs file, then
delegation to `download_orbit` when a truthy start date exists (`if not
start_date:` also skips on an empty string). -/
def orbitEventsOf (env : ProvEnv) : List PEvent :=
  let dr := get_date_range_from_pairs (load_pairs_from_file env.pairsFile)
  match dr.1, dr.2 with
  | some s, some e =>
    if s = "" then [PEvent.orbitSkippedNoDate]
    else [PEvent.orbitDownloadCalled s e]
  | _, _ => [PEvent.orbitSkippedNoDate]

/-- The events of the ephemeris-count check (`len(eof_files) < 2`). -/
def eofEventsOf (env : ProvEnv) : List PEvent :=
  if env.eofCount < 2 then [PEvent.warnFewEof env.eofCount]
  else [PEvent.eofReady env.eofCount]

/-- `prepare_shared_resources(custom_name)` from `main_parallel.py`.

Control flow translated from the source: a complete cached DEM (raster,
`.xml`, `.vrt`) returns immediately; otherwise `if ROI and API_KEY:` first
evaluates the bare name `ROI`, raising `NameError` when the module-level
assignment never ran.  The missing-metadata `raise` sits inside the same
`try` whose `except` downgrades every failure of the DEM branch to a printed
warning.  The orbit phase then always runs: date range from the pairs file,
delegation to `download_orbit` when a (truthy) start date exists, and a
warning when fewer than two ephemeris files are present afterwards. -/
def prepare_shared_resources (customName : String) (env : ProvEnv) :
    PyResult (String × List PEvent) :=
  let target_dem := targetDemOf customName
  if demCachePresent env customName then
    .ok (target_dem, [.demCacheHit])
  else
    match env.roi with
    | none => .exn "NameError: name ROI is not defined"
    | some _parts =>
      let demOut : List PEvent × String :=
        if pyTruthyStr env.apiKey then
          match env.demDownloadResult with
          | .exn m => ([.demDownloadCalled, .demDownloadFailed m], target_dem)
          | .ok downloaded =>
            if !(env.pathExistsAfterDownload (downloaded ++ ".xml"))
                || !(env.pathExistsAfterDownload (downloaded ++ ".vrt")) then
              ([.demDownloadCalled, .demMetaMissing], downloaded)
            else ([.demDownloadCalled, .demReady], downloaded)
        else ([.warnNoKey], target_dem)
      .ok (demOut.2, demOut.1 ++ orbitEventsOf env ++ eofEventsOf env)

/-- The events the orbit/ephemeris phase of provisioning emits; the early
cached-DEM return emits none of them. -/
def isOrbitEvent : PEvent → Bool
  | .orbitSkippedNoDate => true
  | .orbitDownloadCalled _ _ => true
  | .warnFewEof _ => true
  | .eofReady _ => true
  | _ => false

/-- Whether a provisioning trace shows the ephemeris phase was performed. -/
def ephemerisProvisioned (evts : List PEvent) : Bool := evts.any isOrbitEvent

/-! ## `worker_task` -/

/-- A worker's returned summary string, abstracted to its success/failure
shape (the timing figures in the success string are wall-clock and carry no
program logic). -/
inductive WorkerRes : Type where
  | ok
  | fail (msg : String)
deriving DecidableEq

/-- Mutable state threaded through sandbox staging: the filesystem, the
`atomic_link` calls made so far `(src, dst, returned)`, and the warnings
printed for absent DEM companions. -/
structure WState : Type where
  fs : FSys
  links : List (FPath × FPath × Bool)
  demWarn : List String
deriving DecidableEq

/-- One staging call of `atomic_link`, recording the call in the trace. -/
def doLink (src dst : FPath) (st : WState) : PyResult WState :=
  match atomic_link src dst st.fs with
  | .exn e => .exn e
  | .ok (b, fs2) =>
    .ok { st with fs := fs2, links := st.links ++ [(src, dst, b)] }

/-- Stage a list of `(source, destination)` links in order; an exception
aborts the worker (these loops are outside any `try` in the source). -/
def stageSeq (items : List (FPath × FPath)) (st : WState) : PyResult WState :=
  match items with
  | [] => .ok st
  | (s, d) :: rest =>
    match doLink s d st with
    | .exn e => .exn e
    | .ok st2 => stageSeq rest st2

/-- The DEM staging loop (`for ext in ["", ".xml", ".vrt"]`), which sits in a
`try/except` that turns any exception into a printed warning and abandons the
rest of the loop; an absent companion is skipped with a warning. -/
def demStage (runDir : FPath) (demPath : String) :
    List String → WState → WState
  | [], st => st
  | ext :: rest, st =>
    let srcS := demPath ++ ext
    let src := toFPath srcS
    if existsFS st.fs src then
      match atomic_link src (runDir ++ [lastComp src]) st.fs with
      | .exn e =>
        { st with demWarn := st.demWarn ++ ["error linking DEM: " ++ e] }
      | .ok (b, fs2) =>
        demStage runDir demPath rest
          { st with fs := fs2,
                    links := st.links ++ [(src, runDir ++ [lastComp src], b)] }
    else
      demStage runDir demPath rest { st with demWarn := st.demWarn ++ [srcS] }

/-- Suffix test on strings (structural). -/
def strEndsWith (s suffix : String) : Bool :=
  suffix.data.isSuffixOf s.data

/-- `glob.glob(os.path.join(ORBIT_DIR, "*.EOF"))`: the entries directly in
the orbit directory whose name ends in `.EOF` (case-sensitive, as on Linux);
enumeration order is the association-list order. -/
def globEOF (fs : FSys) : List FPath :=
  fs.filterMap (fun pe =>
    if dirnameP pe.1 = ORBIT_P && strEndsWith (lastComp pe.1) ".EOF" then
      some pe.1
    else none)

/-- `os.path.basename` on a path string. -/
def basenameS (s : String) : String := (pySplitOn s '/').getLastD ""

/-- The `topsApp.xml` contents written by `generate_xml` (the `safe`
reference/secondary names and the DEM base name are interpolated). -/
def xml_content (refName secName demPath : String) : String :=
  "<?xml version=\"1.0\" encoding=\"UTF-8\"?>\n<topsApp>\n<component name=\"topsinsar\">\n<property name=\"sensor name\">SENTINEL1</property>\n<property name=\"swaths\">[1,2,3]</property>\n<property name=\"do unwrap\">True</property>\n<property name=\"unwrapper name\">snaphu_mcf</property>\n<property name=\"demFilename\">"
    ++ basenameS demPath
    ++ "</property>\n<component name=\"reference\">\n<property name=\"output directory\">master</property>\n<property name=\"safe\">"
    ++ refName
    ++ "</property>\n</component>\n<component name=\"secondary\">\n<property name=\"output directory\">slave</property>\n<property name=\"safe\">"
    ++ secName
    ++ "</property>\n</component>\n</component>\n</topsApp>\n"

/-- `shutil.rmtree`: drop the subtree rooted at `p`. -/
def removeTree (fs : FSys) (p : FPath) : FSys :=
  fs.filter (fun q => ¬ (p.isPrefixOf q.1))

/-- The fixed Phase 1 step plan. -/
def PHASE_1 : List String :=
  ["startup", "preprocess", "computeBaselines", "verifyDEM", "topo",
   "subsetoverlaps", "coarseoffsets", "coarseresamp", "overlapifg",
   "prepesd", "esd", "rangecoreg", "fineoffsets"]

def START_STEP : String := "startup"

/-- The per-step `topsApp.py` invocation string. -/
def stepCmd (s : String) : String :=
  "topsApp.py topsApp.xml --steps --start=" ++ s ++ " --end=" ++ s

/-- The single contiguous Phase 2 invocation. -/
def PHASE2_CMD : String :=
  "topsApp.py topsApp.xml --steps --start=fineresamp --end=geocode"

/-- All external-processor invocations of one unit, with their retry count
and delay: each Phase 1 step from `START_STEP` on at `retries=2, delay=3`,
then Phase 2 at `retries=1, delay=5`. -/
def unitCmds : List (String × Nat × Nat) :=
  (if PHASE_1.contains START_STEP then
      PHASE_1.drop (PHASE_1.indexOf START_STEP)
    else []).map (fun s => (stepCmd s, 2, 3))
  ++ [(PHASE2_CMD, 1, 5)]

/-- Run the unit's invocations in order; the first retry-exhausted command
raises `CalledProcessError`, which the unit's `try` converts into the failure
message; later commands do not run. -/
def runSteps (succ : String → Nat → Bool) :
    List (String × Nat × Nat) → List (String × RetryOut) × Option String
  | [] => ([], none)
  | (c, retries, delay) :: rest =>
    let r := run_with_retry (succ c) retries delay
    match r.result with
    | .raised => ([(c, r)], some ("CalledProcessError: " ++ c))
    | _ =>
      let (tr, f) := runSteps succ rest
      ((c, r) :: tr, f)

/-- Observable outcome of one worker unit. -/
structure WOut : Type where
  res : WorkerRes
  fs : FSys
  links : List (FPath × FPath × Bool)
  demWarn : List String
  steps : List (String × RetryOut)
deriving DecidableEq

/-- The run-directory name: `run_<refDate>_<secDate>`, falling back to
identifier prefixes when the positional extraction raises `IndexError`. -/
def folderOf (refName secName : String) : String :=
  match (pySplitOn refName '_').get? 5, (pySplitOn secName '_').get? 5 with
  | some a, some b => "run_" ++ pyTake a 8 ++ "_" ++ pyTake b 8
  | _, _ => "run_" ++ pyTake refName 10 ++ "_" ++ pyTake secName 10

/-- The tail of `worker_task` once staging has produced `st3`: write
`topsApp.xml`, clear a stale `pickle` cache, then run the phased execution
inside the unit's `try/except`. -/
def workerFinish (folder : String) (runDir : FPath)
    (refName secName demPath : String) (st3 : WState)
    (succ : String → Nat → Bool) : PyResult WOut :=
  let fsX := insertFS st3.fs (runDir ++ ["topsApp.xml"])
    (Entry.file (xml_content refName secName demPath))
  let fsC :=
    if START_STEP = "startup" then
      if existsFS fsX (runDir ++ ["pickle"]) then
        removeTree fsX (runDir ++ ["pickle"])
      else fsX
    else fsX
  let sf := runSteps succ unitCmds
  match sf.2 with
  | some msg =>
    .ok ⟨.fail ("[" ++ folder ++ "] fail: " ++ msg), fsC, st3.links,
         st3.demWarn, sf.1⟩
  | none => .ok ⟨.ok, fsC, st3.links, st3.demWarn, sf.1⟩

/-- `worker_task((ref, sec, dem_path))` from `main_parallel.py`.

Stage by stage, as in the source: derive the run-directory name (falling back
to identifier prefixes when the positional date extraction raises); create
the directory when absent; link every `*.EOF` file from the orbit directory;
link the DEM raster and its two companions inside a `try` (absent ones are
warned about and skipped); link the two scene inputs; write `topsApp.xml`;
clear a stale `pickle` cache; then run Phase 1 step by step and Phase 2 as a
single call, the whole phased execution being wrapped in the `try` whose
`except` returns the failure message.  `succ cmd attempt` is the
subprocess-outcome oracle. -/
def worker_task (refName secName demPath : String) (fs0 : FSys)
    (succ : String → Nat → Bool) : PyResult WOut :=
  let folder := folderOf refName secName
  let runDir := RUNS_P ++ [folder]
  let fs1 := if existsFS fs0 runDir then fs0 else insertFS fs0 runDir Entry.dir
  let st0 : WState := ⟨fs1, [], []⟩
  match stageSeq ((globEOF fs1).map (fun e => (e, runDir ++ [lastComp e]))) st0 with
  | .exn e => .exn e
  | .ok st1 =>
    let st2 :=
      if demPath ≠ "" then demStage runDir demPath ["", ".xml", ".vrt"] st1
      else st1
    match stageSeq [(RAW_P ++ toFPath refName, runDir ++ toFPath refName),
                    (RAW_P ++ toFPath secName, runDir ++ toFPath secName)] st2 with
    | .exn e => .exn e
    | .ok st3 => workerFinish folder runDir refName secName demPath st3 succ

/-! ## `main` -/

/-- The whole-run environment: module-level configuration inputs plus the
oracles of every external effect. -/
structure MainEnv : Type where
  roiEnv : Option String
  floatOk : String → Bool
  apiKey : Option String
  demBasename : String
  pathExists : String → Bool
  demDownloadResult : PyResult String
  pathExistsAfterDownload : String → Bool
  pairsFile : Option String
  eofCount : Nat
  workerFS : FSys
  stepSucc : String → Nat → Bool

/-- Observable outcome of one whole run. -/
structure MainOut : Type where
  exitCode : Nat
  poolStarted : Bool
  provEvents : List PEvent
  results : List WorkerRes
deriving DecidableEq

/-- The provisioning environment the run presents, with `ROI` bound by the
module-level parse. -/
def provEnvOf (env : MainEnv) : ProvEnv :=
  ⟨env.pathExists, parse_roi env.roiEnv env.floatOk, env.apiKey,
   env.demDownloadResult, env.pathExistsAfterDownload, env.pairsFile,
   env.eofCount⟩

/-- `main()` from `main_parallel.py`: exit 1 when the credential is falsy;
load the pairs; provision shared resources, exiting 1 on any exception;
otherwise run every unit through the pool (each worker starts from the same
pre-pool filesystem — workers use disjoint sandboxes), a worker exception
crashing the run (`Pool.map` re-raises it in the parent), and exit 0 with the
per-unit results otherwise. -/
def pymain (env : MainEnv) : MainOut :=
  if ¬ pyTruthyStr env.apiKey then ⟨1, false, [], []⟩
  else
    let PAIRS := load_pairs_from_file env.pairsFile
    match prepare_shared_resources env.demBasename (provEnvOf env) with
    | .exn _ => ⟨1, false, [], []⟩
    | .ok (demPath, evts) =>
      let raw := PAIRS.map
        (fun p => worker_task p.1 p.2 demPath env.workerFS env.stepSucc)
      if raw.any (fun r => match r with | .exn _ => true | _ => false) then
        ⟨1, true, evts, []⟩
      else
        ⟨0, true, evts,
         raw.filterMap (fun r => match r with | .ok w => some w.res | _ => none)⟩

/-! ## Derived observations used by the theorems -/

/-- The worker's result, seen through the pool: `none` when the worker raised. -/
def resOf (r : PyResult WOut) : Option WorkerRes :=
  match r with
  | .ok w => some w.res
  | .exn _ => none

/-- The worker's `atomic_link` call trace (empty when the worker raised). -/
def linksOf (r : PyResult WOut) : List (FPath × FPath × Bool) :=
  match r with
  | .ok w => w.links
  | .exn _ => []

/-- The worker's absent-DEM warnings (empty when the worker raised). -/
def demWarnOf (r : PyResult WOut) : List String :=
  match r with
  | .ok w => w.demWarn
  | .exn _ => []

/-- Whether a worker result is a `Failure`. -/
def isFailRes : WorkerRes → Bool
  | .fail _ => true
  | .ok => false

/-- `some (isFailRes ...)` of a worker outcome, `none` when it raised. -/
def resFailBit (r : PyResult WOut) : Option Bool :=
  match r with
  | .ok w => some (isFailRes w.res)
  | .exn _ => none

/-- A command fails on every one of its allowed attempts (`1 .. retries`). -/
def cmdExhausted (succ : String → Nat → Bool) (c : String) (retries : Nat) :
    Bool :=
  (List.range retries).all (fun i => !(succ c (i + 1)))

/-- The ephemeris files of the orbit directory as the *provisioner* counts
them (line 241: `glob("*.EOF") + glob("*.eof")`) — both extension cases. -/
def ephemerisFilesBothCases (fs : FSys) : List FPath :=
  fs.filterMap (fun pe =>
    if dirnameP pe.1 = ORBIT_P
        && (strEndsWith (lastComp pe.1) ".EOF"
            || strEndsWith (lastComp pe.1) ".eof") then
      some pe.1
    else none)

/-- Entry-only existence: the path itself holds an entry.  On a symlink-free
filesystem this agrees with `existsFS`. -/
def plainExists (fs : FSys) (p : FPath) : Bool := (lookupFS fs p).isSome

/-- The filesystem state `atomic_link` leaves at `dst` on success. -/
def linkedFS (fs : FSys) (src dst : FPath) : FSys :=
  insertFS fs dst (Entry.symlink (relpathP src (dirnameP dst)))

/-! ## The claim's date-range rule (refinement comparison for C7)

`dateRange_claimed` follows the claim's words — "the lexical minimum and
maximum of all dates extractable from the pairs' scene identifiers (where an
extractable date is an 8-digit `YYYYMMDD` date per the scene-identifier date
rule)", the scene-identifier date rule being the `(\d{8})T\d{6}` search of
`get_s1_date` — to be compared against the source's
`get_date_range_from_pairs`. -/

/-- Every date extractable from every pair under the claim's rule. -/
def claimedDatesOfPairs (pairs : List (String × String)) : List String :=
  pairs.foldl (fun acc p =>
    acc ++ (match searchDate p.1.data with
            | some d => [d]
            | none => [])
        ++ (match searchDate p.2.data with
            | some d => [d]
            | none => [])) []

/-- The claim's `dateRange`: lexical min/max of the claimed dates, or
`(none, none)` when there are none. -/
def dateRange_claimed (pairs : List (String × String)) :
    Option String × Option String :=
  let dates := claimedDatesOfPairs pairs
  if dates.isEmpty then (none, none)
  else ((pySort dates).head?, (pySort dates).getLast?)

/-- Ascending sortedness under the Python string order. -/
def SortedPy (l : List String) : Prop :=
  l.Pairwise (fun a b => pyStrLe a b = true)

/-! ## Concrete environments and inputs used by witnesses and counterexamples -/

/-- ROI set and parsable, credential set, no cached DEM, download returns a
path whose companions are absent afterwards, empty pairs file, no ephemeris
files. -/
def envC1 : MainEnv :=
  ⟨some "1,2,3,4", fun _ => true, some "k", "dem_standard",
   fun _ => false, .ok "/root/proj/data/dem/dl.wgs84",
   fun s => s = "/root/proj/data/dem/dl.wgs84", none, 0, [], fun _ _ => true⟩

/-- ROI environment variable unset, credential set, no cached DEM. -/
def envC2 : MainEnv :=
  ⟨none, fun _ => true, some "k", "dem_standard", fun _ => false, .ok "x",
   fun _ => true, none, 0, [], fun _ _ => true⟩

/-- Cached DEM with both companions already present (ROI unset is irrelevant:
the early return happens before `ROI` is evaluated). -/
def envC3 : MainEnv :=
  ⟨none, fun _ => true, some "k", "dem_standard", fun _ => true, .exn "unused",
   fun _ => false, none, 0, [], fun _ _ => true⟩

/-- Credential set, cached DEM present, pair-list file absent. -/
def envC10 : MainEnv :=
  ⟨none, fun _ => true, some "k", "dem_standard", fun _ => true, .exn "unused",
   fun _ => false, none, 0, [], fun _ _ => true⟩

/-- An orbit directory holding one lowercase-extension ephemeris file. -/
def fsC5 : FSys := [(ORBIT_P ++ ["a.eof"], Entry.file "")]

/-- A pre-worker filesystem with one uppercase ephemeris file, the primary
terrain raster (without sidecars), and the reference scene only. -/
def fsC5w : FSys :=
  [(ORBIT_P ++ ["a.EOF"], Entry.file ""),
   (DEM_P ++ ["dem_standard.wgs84"], Entry.file ""),
   (RAW_P ++ ["r1.SAFE"], Entry.file "")]

/-- Invariant of sandbox staging: outside the run directory the filesystem
still answers as the pre-worker filesystem `fs0`; the run directory itself is
a directory; and strictly below it only symlinks (or nothing) live. -/
structure StageInv (fs0 : FSys) (runDir : FPath) (fs : FSys) : Prop where
  outside : ∀ p : FPath, ¬ (runDir.isPrefixOf p = true) →
    lookupFS fs p = lookupFS fs0 p
  rdir : lookupFS fs runDir = some Entry.dir
  under : ∀ p : FPath, runDir.isPrefixOf p = true → p ≠ runDir →
    lookupFS fs p = none ∨ ∃ t, lookupFS fs p = some (Entry.symlink t)

/-! ## Helper lemmas -/

theorem retryLoop_step (succ : Nat → Bool) (delay rem attempt : Nat) :
    retryLoop succ delay (rem + 1) attempt =
      if succ attempt then ⟨1, [], .returnedTrue⟩
      else if rem = 0 then ⟨1, [], .raised⟩
      else
        let r := retryLoop succ delay rem (attempt + 1)
        ⟨r.invocations + 1, delay :: r.sleeps, r.result⟩ := rfl

theorem retryLoop_all_fail (succ : Nat → Bool) (delay : Nat) :
    ∀ m attempt, (∀ i, i ≤ m → succ (attempt + i) = false) →
      retryLoop succ delay (m + 1) attempt =
        ⟨m + 1, List.replicate m delay, RetryResult.raised⟩ := by
  intro m
  induction m with
  | zero =>
    intro attempt h
    have h0 : succ attempt = false := by simpa using h 0 (by omega)
    rw [retryLoop_step, h0]
    simp
  | succ k ih =>
    intro attempt h
    have h0 : succ attempt = false := by simpa using h 0 (by omega)
    have hr := ih (attempt + 1) (fun i hi => by
      have := h (i + 1) (by omega)
      simpa [Nat.add_comm, Nat.add_assoc, Nat.add_left_comm] using this)
    rw [retryLoop_step, h0]
    simp only [Bool.false_eq_true, if_false, Nat.succ_ne_zero, hr,
      List.replicate_succ]

theorem retryLoop_succeeds_at (succ : Nat → Bool) (delay : Nat) :
    ∀ k m attempt, k ≤ m →
      (∀ i, i < k → succ (attempt + i) = false) → succ (attempt + k) = true →
      retryLoop succ delay (m + 1) attempt =
        ⟨k + 1, List.replicate k delay, RetryResult.returnedTrue⟩ := by
  intro k
  induction k with
  | zero =>
    intro m attempt _ _ hs
    have h0 : succ attempt = true := by simpa using hs
    rw [retryLoop_step, h0]
    simp
  | succ j ih =>
    intro m attempt hk hf hs
    have h0 : succ attempt = false := by simpa using hf 0 (by omega)
    obtain ⟨n, rfl⟩ : ∃ n, m = n + 1 := ⟨m - 1, by omega⟩
    have hr := ih n (attempt + 1) (by omega)
      (fun i hi => by
        have := hf (i + 1) (by omega)
        simpa [Nat.add_comm, Nat.add_assoc, Nat.add_left_comm] using this)
      (by
        have heq : attempt + 1 + j = attempt + (j + 1) := by omega
        rw [heq]; exact hs)
    rw [retryLoop_step, h0]
    simp only [Bool.false_eq_true, if_false, Nat.succ_ne_zero, hr,
      List.replicate_succ]

theorem retryLoop_raised_iff (succ : Nat → Bool) (delay : Nat) :
    ∀ m attempt,
      ((retryLoop succ delay (m + 1) attempt).result = RetryResult.raised ↔
        ∀ i, i ≤ m → succ (attempt + i) = false) := by
  intro m
  induction m with
  | zero =>
    intro attempt
    by_cases h0 : succ attempt = true
    · rw [retryLoop_step, h0]
      simp only [if_true]
      constructor
      · intro h; cases h
      · intro h
        have := h 0 (by omega)
        simp [h0] at this
    · simp only [Bool.not_eq_true] at h0
      rw [retryLoop_step, h0]
      simp only [Bool.false_eq_true, if_false, if_true]
      constructor
      · intro _ i hi
        have : i = 0 := by omega
        simpa [this] using h0
      · intro _; trivial
  | succ k ih =>
    intro attempt
    by_cases h0 : succ attempt = true
    · rw [retryLoop_step, h0]
      simp only [if_true]
      constructor
      · intro h; cases h
      · intro h
        have := h 0 (by omega)
        simp [h0] at this
    · simp only [Bool.not_eq_true] at h0
      rw [retryLoop_step, h0]
      simp only [Bool.false_eq_true, if_false, Nat.succ_ne_zero]
      rw [ih (attempt + 1)]
      constructor
      · intro h i hi
        rcases Nat.eq_zero_or_pos i with h1 | h1
        · simpa [h1] using h0
        · have := h (i - 1) (by omega)
          have heq : attempt + 1 + (i - 1) = attempt + i := by omega
          rwa [heq] at this
      · intro h i hi
        have := h (i + 1) (by omega)
        have heq : attempt + (i + 1) = attempt + 1 + i := by omega
        rwa [heq] at this

theorem orbitEventsOf_any (env : ProvEnv) :
    (orbitEventsOf env).any isOrbitEvent = true := by
  unfold orbitEventsOf
  rcases get_date_range_from_pairs (load_pairs_from_file env.pairsFile) with
    ⟨s?, e?⟩
  rcases s? with _ | s <;> rcases e? with _ | e <;>
    simp [isOrbitEvent]
  split <;> simp [isOrbitEvent]

theorem ephemerisProvisioned_append (xs : List PEvent) (env : ProvEnv) :
    ephemerisProvisioned (xs ++ orbitEventsOf env ++ eofEventsOf env) =
      true := by
  unfold ephemerisProvisioned
  simp only [List.any_append, orbitEventsOf_any, Bool.or_true, Bool.true_or]

theorem prepare_events_char (customName : String) (env : ProvEnv)
    (d : String) (evts : List PEvent)
    (h : prepare_shared_resources customName env = .ok (d, evts)) :
    (demCachePresent env customName = true ∧ evts = [PEvent.demCacheHit]) ∨
    (demCachePresent env customName = false ∧
      ephemerisProvisioned evts = true) := by
  unfold prepare_shared_resources at h
  by_cases hc : demCachePresent env customName
  · left
    simp only [hc, if_true] at h
    cases h
    exact ⟨hc, rfl⟩
  · right
    simp only [Bool.not_eq_true] at hc
    simp only [hc, Bool.false_eq_true, if_false] at h
    refine ⟨hc, ?_⟩
    rcases hroi : env.roi with _ | parts
    · rw [hroi] at h; cases h
    · rw [hroi] at h
      simp only [PyResult.ok.injEq, Prod.mk.injEq] at h
      rw [← h.2]
      exact ephemerisProvisioned_append _ env

/-! ## Claim theorems -/

/-- C6: for every retry count `n ≥ 1`, a command failing exactly `n - 1`
times then succeeding makes `run_with_retry` return success after exactly `n`
invocations, and a command failing all `n` attempts makes it invoke the
command exactly `n` times and re-raise; in both cases the fixed per-attempt
delay is slept between consecutive attempts (`n - 1` sleeps of `delay`). -/
theorem C6_retry_attempt_counts (n delay : Nat) (succ : Nat → Bool)
    (hn : 1 ≤ n) :
    ((∀ a, 1 ≤ a → a < n → succ a = false) → succ n = true →
      run_with_retry succ n delay =
        ⟨n, List.replicate (n - 1) delay, RetryResult.returnedTrue⟩) ∧
    ((∀ a, 1 ≤ a → a ≤ n → succ a = false) →
      run_with_retry succ n delay =
        ⟨n, List.replicate (n - 1) delay, RetryResult.raised⟩) := by
  obtain ⟨m, rfl⟩ : ∃ m, n = m + 1 := ⟨n - 1, by omega⟩
  constructor
  · intro hf hs
    have h := retryLoop_succeeds_at succ delay m m 1 (Nat.le_refl m)
      (fun i hi => by
        have := hf (1 + i) (by omega) (by omega)
        simpa using this)
      (by
        have heq : 1 + m = m + 1 := by omega
        rw [heq]; exact hs)
    simpa [run_with_retry] using h
  · intro hf
    have h := retryLoop_all_fail succ delay m 1
      (fun i hi => by
        have := hf (1 + i) (by omega) (by omega)
        simpa using this)
    simpa [run_with_retry] using h

theorem C6_retry_attempt_counts_witness :
    run_with_retry (fun a => decide (a = 2)) 2 3 =
      ⟨2, [3], RetryResult.returnedTrue⟩ ∧
    run_with_retry (fun _ => false) 2 3 =
      ⟨2, [3], RetryResult.raised⟩ := by
  constructor
  · have h := (C6_retry_attempt_counts 2 3 (fun a => decide (a = 2))
      (by omega)).1
      (fun a h1 h2 => by
        have : a = 1 := by omega
        subst this; decide)
      (by decide)
    simpa using h
  · have h := (C6_retry_attempt_counts 2 3 (fun _ => false) (by omega)).2
      (fun a _ _ => rfl)
    simpa using h

/-- C9: when the source does not exist, `atomic_link` returns `False` without
raising, with the whole filesystem — in particular whatever occupies the
destination — left unchanged. -/
theorem C9_atomic_link_missing_source (fs : FSys) (src dst : FPath)
    (h : existsFS fs src = false) :
    atomic_link src dst fs = .ok (false, fs) := by
  simp [atomic_link, h]

theorem C9_atomic_link_missing_source_witness :
    existsFS [(["b"], Entry.file "y")] ["a"] = false ∧
    atomic_link ["a"] ["b"] [(["b"], Entry.file "y")] =
      .ok (false, [(["b"], Entry.file "y")]) :=
  ⟨by decide, C9_atomic_link_missing_source _ _ _ (by decide)⟩

/-- C10: with the pair-list file absent, parsing returns the empty pair
sequence without raising, and (when provisioning itself goes through, here via
the cached-DEM early exit) the run proceeds through the pool with zero units
instead of aborting. -/
theorem C10_missing_pairs_file (env : MainEnv)
    (hfile : env.pairsFile = none)
    (hkey : pyTruthyStr env.apiKey = true)
    (hcache : demCachePresent (provEnvOf env) env.demBasename = true) :
    load_pairs_from_file env.pairsFile = [] ∧
    pymain env = ⟨0, true, [PEvent.demCacheHit], []⟩ := by
  constructor
  · rw [hfile]; rfl
  · unfold pymain
    rw [hkey]
    simp only [Bool.true_eq_false, not_true_eq_false, if_false, hfile]
    unfold prepare_shared_resources
    rw [hcache]
    simp [load_pairs_from_file]

theorem C10_missing_pairs_file_witness :
    load_pairs_from_file envC10.pairsFile = [] ∧
    pymain envC10 = ⟨0, true, [PEvent.demCacheHit], []⟩ :=
  C10_missing_pairs_file envC10 rfl (by decide) (by decide)

/-- C2: the code contradicts the claim.  With the terrain artifact absent and
the `ROI` environment variable unset, the module-level name `ROI` is never
bound, so `prepare_shared_resources` raises `NameError` at
`if ROI and API_KEY:`; `main` catches it and exits 1 before the pool starts —
instead of the claimed non-fatal warning.  (The unreachable `if not ROI:`
warning in the source shows the intent the claim describes.) -/
theorem C2_roi_unset_aborts :
    parse_roi envC2.roiEnv envC2.floatOk = none ∧
    pyTruthyStr envC2.apiKey = true ∧
    demCachePresent (provEnvOf envC2) envC2.demBasename = false ∧
    prepare_shared_resources envC2.demBasename (provEnvOf envC2) =
      .exn "NameError: name ROI is not defined" ∧
    pymain envC2 = ⟨1, false, [], []⟩ := by decide

/-- C1 (counterexample): terrain acquisition runs and leaves no `.xml`
companion, yet the run does **not** abort: provisioning returns normally and
the pool starts with exit status 0. -/
theorem C1_counterexample :
    (provEnvOf envC1).demDownloadResult = .ok "/root/proj/data/dem/dl.wgs84" ∧
    (provEnvOf envC1).pathExistsAfterDownload
      ("/root/proj/data/dem/dl.wgs84" ++ ".xml") = false ∧
    pymain envC1 =
      ⟨0, true,
       [PEvent.demDownloadCalled, PEvent.demMetaMissing,
        PEvent.orbitSkippedNoDate, PEvent.warnFewEof 0], []⟩ := by decide

/-- C1 (amended): when either companion metadata file is missing after the
terrain download, the `raise` is caught by provisioning's own `except`: only
a warning is recorded, provisioning continues into ephemeris provisioning and
returns normally, and the run still reaches the worker pool. -/
theorem C1_amended_meta_missing_nonfatal (env : MainEnv)
    (roiParts : List String) (d : String)
    (hroi : parse_roi env.roiEnv env.floatOk = some roiParts)
    (hkey : pyTruthyStr env.apiKey = true)
    (hmiss : demCachePresent (provEnvOf env) env.demBasename = false)
    (hdl : env.demDownloadResult = .ok d)
    (hxml : (!(env.pathExistsAfterDownload (d ++ ".xml"))
             || !(env.pathExistsAfterDownload (d ++ ".vrt"))) = true) :
    prepare_shared_resources env.demBasename (provEnvOf env) =
      .ok (d, [PEvent.demDownloadCalled, PEvent.demMetaMissing]
              ++ orbitEventsOf (provEnvOf env)
              ++ eofEventsOf (provEnvOf env)) ∧
    ephemerisProvisioned
      ([PEvent.demDownloadCalled, PEvent.demMetaMissing]
        ++ orbitEventsOf (provEnvOf env) ++ eofEventsOf (provEnvOf env)) =
      true ∧
    (pymain env).poolStarted = true := by
  have hprep : prepare_shared_resources env.demBasename (provEnvOf env) =
      .ok (d, [PEvent.demDownloadCalled, PEvent.demMetaMissing]
              ++ orbitEventsOf (provEnvOf env)
              ++ eofEventsOf (provEnvOf env)) := by
    unfold prepare_shared_resources
    rw [hmiss]
    have hroi2 : (provEnvOf env).roi = some roiParts := hroi
    rw [hroi2]
    simp only [Bool.false_eq_true, if_false]
    have hkey2 : pyTruthyStr (provEnvOf env).apiKey = true := hkey
    rw [hkey2]
    have hdl2 : (provEnvOf env).demDownloadResult = .ok d := hdl
    rw [hdl2]
    simp only [if_true]
    have hxml2 : (!((provEnvOf env).pathExistsAfterDownload (d ++ ".xml"))
        || !((provEnvOf env).pathExistsAfterDownload (d ++ ".vrt"))) = true :=
      hxml
    rw [hxml2]
    simp
  refine ⟨hprep, ephemerisProvisioned_append _ _, ?_⟩
  unfold pymain
  rw [hkey]
  simp only [Bool.true_eq_false, not_true_eq_false, if_false, hprep]
  split <;> rfl

theorem C1_amended_meta_missing_nonfatal_witness :
    prepare_shared_resources envC1.demBasename (provEnvOf envC1) =
      .ok ("/root/proj/data/dem/dl.wgs84",
           [PEvent.demDownloadCalled, PEvent.demMetaMissing]
             ++ orbitEventsOf (provEnvOf envC1)
             ++ eofEventsOf (provEnvOf envC1)) ∧
    ephemerisProvisioned
      ([PEvent.demDownloadCalled, PEvent.demMetaMissing]
        ++ orbitEventsOf (provEnvOf envC1) ++ eofEventsOf (provEnvOf envC1)) =
      true ∧
    (pymain envC1).poolStarted = true :=
  C1_amended_meta_missing_nonfatal envC1 ["1", "2", "3", "4"]
    "/root/proj/data/dem/dl.wgs84" (by decide) (by decide) (by decide)
    (by decide) (by decide)

/-- C3 (counterexample): with the terrain artifact and both companions
already present, provisioning returns at the early exit and the pool starts
without any ephemeris provisioning having been performed. -/
theorem C3_counterexample :
    demCachePresent (provEnvOf envC3) envC3.demBasename = true ∧
    pymain envC3 = ⟨0, true, [PEvent.demCacheHit], []⟩ ∧
    ephemerisProvisioned [PEvent.demCacheHit] = false := by decide

/-- C3 (amended): on every run that reaches the worker pool, ephemeris
provisioning is performed before the pool starts **iff** the terrain
early-exit was not taken; a cached terrain artifact with both companions
skips ephemeris provisioning entirely. -/
theorem C3_amended_ephemeris_iff_no_cache_hit (env : MainEnv)
    (hpool : (pymain env).poolStarted = true) :
    ephemerisProvisioned (pymain env).provEvents =
      !(demCachePresent (provEnvOf env) env.demBasename) := by
  unfold pymain at hpool ⊢
  by_cases hkey : pyTruthyStr env.apiKey = true
  · rw [hkey] at hpool ⊢
    simp only [Bool.true_eq_false, not_true_eq_false, if_false] at hpool ⊢
    rcases hprep : prepare_shared_resources env.demBasename (provEnvOf env)
      with ⟨d, evts⟩ | m
    · dsimp only at hpool ⊢
      rcases prepare_events_char _ _ _ _ hprep with ⟨hc, rfl⟩ | ⟨hc, he⟩
      · rw [hc]
        split <;> simp [ephemerisProvisioned, isOrbitEvent]
      · rw [hc]
        split <;> simpa using he
    · rw [hprep] at hpool
      simp at hpool
  · simp only [Bool.not_eq_true] at hkey
    rw [hkey] at hpool
    simp at hpool

theorem C3_amended_ephemeris_iff_no_cache_hit_witness :
    ephemerisProvisioned (pymain envC3).provEvents =
      !(demCachePresent (provEnvOf envC3) envC3.demBasename) :=
  C3_amended_ephemeris_iff_no_cache_hit envC3 (by decide)

/-! ## Order lemmas for the Python string sort -/

theorem charListLe_refl (a : List Char) : charListLe a a = true := by
  induction a with
  | nil => rfl
  | cons c t ih => simp [charListLe, ih]

theorem charListLe_total (a b : List Char) :
    charListLe a b = true ∨ charListLe b a = true := by
  induction a generalizing b with
  | nil => left; rfl
  | cons x as ih =>
    cases b with
    | nil => right; rfl
    | cons y bs =>
      by_cases h : x.toNat = y.toNat
      · have h2 : y.toNat = x.toNat := h.symm
        rcases ih bs with hl | hr
        · left; simp [charListLe, h, hl]
        · right; simp [charListLe, h2, hr]
      · rcases Nat.lt_or_ge x.toNat y.toNat with hlt | hge
        · left; simp [charListLe, h, hlt]
        · have h2 : ¬ y.toNat = x.toNat := fun e => h e.symm
          have hgt : y.toNat < x.toNat := by omega
          right; simp [charListLe, h2, hgt]

theorem charListLe_trans (a b c : List Char) (hab : charListLe a b = true)
    (hbc : charListLe b c = true) : charListLe a c = true := by
  induction a generalizing b c with
  | nil => rfl
  | cons x as ih =>
    cases b with
    | nil => simp [charListLe] at hab
    | cons y bs =>
      cases c with
      | nil => simp [charListLe] at hbc
      | cons z cs =>
        simp only [charListLe] at hab hbc ⊢
        by_cases hxy : x.toNat = y.toNat
        · by_cases hyz : y.toNat = z.toNat
          · have hxz : x.toNat = z.toNat := hxy.trans hyz
            rw [if_pos hxy] at hab
            rw [if_pos hyz] at hbc
            rw [if_pos hxz]
            exact ih bs cs hab hbc
          · have hlt : y.toNat < z.toNat := by
              rw [if_neg hyz] at hbc
              simpa using hbc
            have hxz : ¬ x.toNat = z.toNat := by omega
            rw [if_neg hxz]
            simp; omega
        · have hlt : x.toNat < y.toNat := by
            rw [if_neg hxy] at hab
            simpa using hab
          by_cases hyz : y.toNat = z.toNat
          · have hxz : ¬ x.toNat = z.toNat := by omega
            rw [if_neg hxz]; simp; omega
          · have hlt2 : y.toNat < z.toNat := by
              rw [if_neg hyz] at hbc
              simpa using hbc
            have hxz : ¬ x.toNat = z.toNat := by omega
            rw [if_neg hxz]; simp; omega

theorem pyStrLe_refl (a : String) : pyStrLe a a = true := charListLe_refl _

theorem pyStrLe_total (a b : String) :
    pyStrLe a b = true ∨ pyStrLe b a = true := charListLe_total _ _

theorem pyStrLe_trans (a b c : String) (hab : pyStrLe a b = true)
    (hbc : pyStrLe b c = true) : pyStrLe a c = true :=
  charListLe_trans _ _ _ hab hbc

theorem mem_insertSorted (x y : String) (l : List String) :
    y ∈ insertSorted x l ↔ y = x ∨ y ∈ l := by
  induction l with
  | nil => simp [insertSorted]
  | cons z t ih =>
    by_cases h : pyStrLe x z = true
    · rw [insertSorted, if_pos h]
      simp only [List.mem_cons]
    · rw [insertSorted, if_neg h]
      simp only [List.mem_cons, ih]
      tauto

theorem mem_pySort (y : String) (l : List String) : y ∈ pySort l ↔ y ∈ l := by
  induction l with
  | nil => simp [pySort]
  | cons x t ih => simp [pySort, mem_insertSorted, ih]

theorem sorted_insertSorted (x : String) (l : List String) (h : SortedPy l) :
    SortedPy (insertSorted x l) := by
  induction l with
  | nil =>
    simp [insertSorted, SortedPy]
  | cons z t ih =>
    rcases List.pairwise_cons.mp h with ⟨hz, ht⟩
    by_cases hxz : pyStrLe x z = true
    · simp only [insertSorted, hxz, if_true]
      refine List.pairwise_cons.mpr ⟨?_, h⟩
      intro b hb
      rcases List.mem_cons.mp hb with rfl | hbt
      · exact hxz
      · exact pyStrLe_trans x z b hxz (hz b hbt)
    · simp only [insertSorted, hxz, if_false]
      refine List.pairwise_cons.mpr ⟨?_, ih ht⟩
      intro b hb
      rcases (mem_insertSorted x b t).mp hb with rfl | hbt
      · rcases pyStrLe_total b z with hbz | hzb
        · exact absurd hbz hxz
        · exact hzb
      · exact hz b hbt

theorem sorted_pySort (l : List String) : SortedPy (pySort l) := by
  induction l with
  | nil => simp [pySort, SortedPy]
  | cons x t ih => exact sorted_insertSorted x (pySort t) ih

theorem head_min_of_sorted (l : List String) (h : SortedPy l) (m : String)
    (hm : l.head? = some m) : ∀ d ∈ l, pyStrLe m d = true := by
  cases l with
  | nil => cases hm
  | cons a t =>
    cases hm
    intro d hd
    rcases List.mem_cons.mp hd with rfl | hdt
    · exact pyStrLe_refl d
    · exact (List.pairwise_cons.mp h).1 d hdt

theorem mem_of_getLastQ (l : List String) (a : String)
    (h : l.getLast? = some a) : a ∈ l := by
  induction l with
  | nil => cases h
  | cons x t ih =>
    cases t with
    | nil =>
      simp only [List.getLast?_singleton, Option.some.injEq] at h
      simp [h]
    | cons y t2 =>
      have h2 : (y :: t2).getLast? = some a := by
        simpa [List.getLast?_cons_cons] using h
      exact List.mem_cons_of_mem x (ih h2)

theorem last_max_of_sorted (l : List String) (h : SortedPy l) (M : String)
    (hM : l.getLast? = some M) : ∀ d ∈ l, pyStrLe d M = true := by
  induction l with
  | nil => cases hM
  | cons a t ih =>
    cases t with
    | nil =>
      simp only [List.getLast?_singleton, Option.some.injEq] at hM
      intro d hd
      simp only [List.mem_singleton] at hd
      rw [hd, hM]
      exact pyStrLe_refl _
    | cons b t2 =>
      have hM2 : (b :: t2).getLast? = some M := by
        simpa [List.getLast?_cons_cons] using hM
      rcases List.pairwise_cons.mp h with ⟨ha, ht⟩
      intro d hd
      rcases List.mem_cons.mp hd with rfl | hdt
      · exact ha M (mem_of_getLastQ _ _ hM2)
      · exact ih ht hM2 d hdt

theorem pySort_ne_nil (l : List String) (h : l ≠ []) : pySort l ≠ [] := by
  cases l with
  | nil => exact absurd rfl h
  | cons x t =>
    intro hcon
    have hx : x ∈ pySort (x :: t) := (mem_pySort x _).mpr (by simp)
    rw [hcon] at hx
    cases hx

/-- C7 (counterexample): a pair whose scene identifiers carry regex-
extractable dates but have no sixth `_`-field — the claim's rule extracts
`(20230101, 20230102)` while the code returns `(None, None)`. -/
theorem C7_counterexample :
    get_date_range_from_pairs [("20230101T000000", "20230102T000000")] =
      (none, none) ∧
    dateRange_claimed [("20230101T000000", "20230102T000000")] =
      (some "20230101", some "20230102") := by decide

/-- C7 (amended): `dateRange` returns the lexical minimum and maximum of the
dates collected by the *positional* rule — the first eight characters of the
sixth `_`-separated field of each identifier, a pair contributing both or
(on `IndexError`) neither — and `(none, none)` exactly when no pair
contributes a date.  (The regex-based `extractDate` rule the claim names is
not the rule `dateRange` uses.) -/
theorem C7_amended_positional_min_max (pairs : List (String × String)) :
    (get_date_range_from_pairs pairs = (none, none) ↔
      datesOfPairs pairs = []) ∧
    (∀ m, (get_date_range_from_pairs pairs).1 = some m →
      m ∈ datesOfPairs pairs ∧
      ∀ d ∈ datesOfPairs pairs, pyStrLe m d = true) ∧
    (∀ M, (get_date_range_from_pairs pairs).2 = some M →
      M ∈ datesOfPairs pairs ∧
      ∀ d ∈ datesOfPairs pairs, pyStrLe d M = true) := by
  by_cases hd : datesOfPairs pairs = []
  · unfold get_date_range_from_pairs
    rw [hd]
    refine ⟨by simp [hd], ?_, ?_⟩
    · intro m hm; simp at hm
    · intro M hM; simp at hM
  · have hne : ¬ (datesOfPairs pairs).isEmpty = true := by
      simpa [List.isEmpty_iff] using hd
    constructor
    · unfold get_date_range_from_pairs
      simp only [hne, Bool.false_eq_true, if_false]
      constructor
      · intro hcon
        have h1 := congrArg Prod.fst hcon
        simp only at h1
        have := pySort_ne_nil _ hd
        cases hsort : pySort (datesOfPairs pairs) with
        | nil => exact absurd hsort this
        | cons a t => rw [hsort] at h1; cases h1
      · intro h; exact absurd h hd
    constructor
    · intro m hm
      unfold get_date_range_from_pairs at hm
      simp only [hne, Bool.false_eq_true, if_false] at hm
      have hmem : m ∈ pySort (datesOfPairs pairs) := by
        cases hsort : pySort (datesOfPairs pairs) with
        | nil => rw [hsort] at hm; cases hm
        | cons a t =>
          rw [hsort] at hm
          cases hm
          simp
      refine ⟨(mem_pySort m _).mp hmem, ?_⟩
      intro d hdmem
      exact head_min_of_sorted _ (sorted_pySort _) m hm d
        ((mem_pySort d _).mpr hdmem)
    · intro M hM
      unfold get_date_range_from_pairs at hM
      simp only [hne, Bool.false_eq_true, if_false] at hM
      refine ⟨(mem_pySort M _).mp (mem_of_getLastQ _ _ hM), ?_⟩
      intro d hdmem
      exact last_max_of_sorted _ (sorted_pySort _) M hM d
        ((mem_pySort d _).mpr hdmem)

theorem C7_amended_positional_min_max_witness :
    "20230110" ∈
      datesOfPairs [("S1A_IW_SLC__1SDV_20230203T034221_x.SAFE",
        "S1A_IW_SLC__1SDV_20230110T034221_x.SAFE")] ∧
    pyStrLe "20230110" "20230203" = true := by
  have h := (C7_amended_positional_min_max
    [("S1A_IW_SLC__1SDV_20230203T034221_x.SAFE",
      "S1A_IW_SLC__1SDV_20230110T034221_x.SAFE")]).2.1 "20230110" (by decide)
  exact ⟨h.1, h.2 "20230203" (by decide)⟩

/-! ## Filesystem lemmas for the atomic-link claims -/

theorem lookupFS_removeFS (fs : FSys) (p q : FPath) :
    lookupFS (removeFS fs p) q = if q = p then none else lookupFS fs q := by
  induction fs with
  | nil => simp [removeFS, lookupFS]
  | cons pe t ih =>
    obtain ⟨r, e⟩ := pe
    by_cases hrp : r = p
    · subst hrp
      rw [removeFS, if_pos rfl, ih]
      by_cases hqp : q = r
      · simp [hqp]
      · rw [if_neg hqp, if_neg hqp, lookupFS,
          if_neg (fun h => hqp h.symm)]
    · rw [removeFS, if_neg hrp, lookupFS]
      by_cases hrq : r = q
      · subst hrq
        rw [if_pos rfl, if_neg (fun h => hrp h), lookupFS, if_pos rfl]
      · rw [if_neg hrq, ih, lookupFS, if_neg hrq]

theorem removeFS_idem (fs : FSys) (p : FPath) :
    removeFS (removeFS fs p) p = removeFS fs p := by
  induction fs with
  | nil => rfl
  | cons pe t ih =>
    obtain ⟨r, e⟩ := pe
    by_cases hrp : r = p
    · rw [removeFS, if_pos hrp, ih]
    · rw [removeFS, if_neg hrp, removeFS, if_neg hrp, ih]

theorem removeFS_of_lookup_none (fs : FSys) (p : FPath)
    (h : lookupFS fs p = none) : removeFS fs p = fs := by
  induction fs with
  | nil => rfl
  | cons pe t ih =>
    obtain ⟨r, e⟩ := pe
    rw [lookupFS] at h
    by_cases hrp : r = p
    · rw [if_pos hrp] at h; cases h
    · rw [if_neg hrp] at h
      rw [removeFS, if_neg hrp, ih h]

theorem lookupFS_insertFS_self (fs : FSys) (p : FPath) (e : Entry) :
    lookupFS (insertFS fs p e) p = some e := by
  rw [insertFS, lookupFS, if_pos rfl]

theorem lookupFS_insertFS_ne (fs : FSys) (p q : FPath) (e : Entry)
    (h : q ≠ p) : lookupFS (insertFS fs p e) q = lookupFS fs q := by
  rw [insertFS, lookupFS, if_neg (fun hr => h hr.symm), lookupFS_removeFS,
    if_neg h]

theorem insertFS_removeFS (fs : FSys) (p : FPath) (e : Entry) :
    insertFS (removeFS fs p) p e = insertFS fs p e := by
  rw [insertFS, insertFS, removeFS_idem]

theorem resolveE_step (fs : FSys) (fuel : Nat) (p : FPath) :
    resolveE fs (fuel + 1) p =
      match lookupFS fs p with
      | some (Entry.symlink t) => resolveE fs fuel (resolveRel (dirnameP p) t)
      | e => e := rfl

theorem existsFS_of_lookup_file (fs : FSys) (p : FPath) (c : String)
    (h : lookupFS fs p = some (Entry.file c)) : existsFS fs p = true := by
  unfold existsFS
  rw [resolveE_step, h]
  rfl

theorem existsFS_of_lookup_dir (fs : FSys) (p : FPath)
    (h : lookupFS fs p = some Entry.dir) : existsFS fs p = true := by
  unfold existsFS
  rw [resolveE_step, h]
  rfl

theorem existsFS_of_lookup_none (fs : FSys) (p : FPath)
    (h : lookupFS fs p = none) : existsFS fs p = false := by
  unfold existsFS
  rw [resolveE_step, h]
  rfl

/-! ## `relpath`/`resolve` inverse -/

theorem commonPrefixLen_le_right :
    ∀ a b : List String, commonPrefixLen a b ≤ b.length := by
  intro a
  induction a with
  | nil => intro b; simp [commonPrefixLen]
  | cons x as ih =>
    intro b
    cases b with
    | nil => simp [commonPrefixLen]
    | cons y bs =>
      rw [commonPrefixLen]
      by_cases h : x = y
      · rw [if_pos h]
        have := ih bs
        simp only [List.length_cons]
        omega
      · rw [if_neg h]
        simp

theorem take_commonPrefixLen_eq :
    ∀ a b : List String, a.take (commonPrefixLen a b) =
      b.take (commonPrefixLen a b) := by
  intro a
  induction a with
  | nil => intro b; simp [commonPrefixLen]
  | cons x as ih =>
    intro b
    cases b with
    | nil => simp [commonPrefixLen]
    | cons y bs =>
      rw [commonPrefixLen]
      by_cases h : x = y
      · rw [if_pos h]
        simp only [List.take_succ_cons]
        rw [h, ih bs]
      · rw [if_neg h]
        simp

theorem foldl_dotdot (n : Nat) :
    ∀ base : FPath,
      List.foldl (fun acc c => if c = ".." then acc.dropLast else acc ++ [c])
        base (List.replicate n "..") = base.take (base.length - n) := by
  induction n with
  | zero => intro base; simp
  | succ k ih =>
    intro base
    rw [List.replicate_succ, List.foldl_cons, if_pos rfl, ih]
    rw [List.dropLast_eq_take, List.take_take, List.length_take]
    congr 1
    omega

theorem foldl_no_dotdot :
    ∀ (l : List String) (base : FPath), (".." : String) ∉ l →
      List.foldl (fun acc c => if c = ".." then acc.dropLast else acc ++ [c])
        base l = base ++ l := by
  intro l
  induction l with
  | nil => intro base _; simp
  | cons c t ih =>
    intro base h
    have hc : ¬ c = ".." := fun hcc => h (by simp [hcc])
    rw [List.foldl_cons, if_neg hc, ih (base ++ [c]) (fun hm => h (by simp [hm]))]
    simp

theorem resolveRel_relpathP (src start : FPath)
    (h : (".." : String) ∉ src) :
    resolveRel start (relpathP src start) = src := by
  unfold resolveRel relpathP
  rw [List.foldl_append, foldl_dotdot]
  have hk : commonPrefixLen src start ≤ start.length :=
    commonPrefixLen_le_right _ _
  have harith : start.length - (start.length - commonPrefixLen src start) =
      commonPrefixLen src start := by omega
  rw [harith]
  rw [foldl_no_dotdot _ _ (fun hmem => h (List.mem_of_mem_drop hmem))]
  rw [← take_commonPrefixLen_eq]
  exact List.take_append_drop _ _

/-- C8 (counterexample): linking a path onto itself.  The first application
removes the source file and installs a self-referential symlink (and returns
`True`); the second application then fails, because the source no longer
resolves — so applying atomic-link twice does **not** leave a valid link for
every destination, contrary to the claim. -/
theorem C8_counterexample :
    atomic_link ["a", "b"] ["a", "b"]
      [(["a"], Entry.dir), (["a", "b"], Entry.file "x")] =
      .ok (true, [(["a", "b"], Entry.symlink ["b"]), (["a"], Entry.dir)]) ∧
    atomic_link ["a", "b"] ["a", "b"]
      [(["a", "b"], Entry.symlink ["b"]), (["a"], Entry.dir)] =
      .ok (false, [(["a", "b"], Entry.symlink ["b"]), (["a"], Entry.dir)]) := by
  decide

/-- C8 (amended): for a source that is a regular file, a destination distinct
from the source, below an existing parent directory, and not itself occupied
by a directory, applying `atomic_link` twice leaves exactly one valid
symbolic link at the destination: both applications succeed, the second
reproduces the state left by the first, the destination holds the relative
link `os.symlink` received, that link resolves back to the source, the
destination exists, and no other path changes.  (When the destination equals
the source, the first application destroys the source and the second fails —
the counterexample.) -/
theorem C8_amended_idempotent_link (fs : FSys) (src dst : FPath) (c : String)
    (h1 : lookupFS fs src = some (Entry.file c))
    (h2 : dst ≠ src)
    (h3 : lookupFS fs (dirnameP dst) = some Entry.dir)
    (h4 : dirnameP dst ≠ dst)
    (h5 : (".." : String) ∉ src)
    (h6 : lookupFS fs dst ≠ some Entry.dir) :
    atomic_link src dst fs = .ok (true, linkedFS fs src dst) ∧
    atomic_link src dst (linkedFS fs src dst) =
      .ok (true, linkedFS fs src dst) ∧
    lookupFS (linkedFS fs src dst) dst =
      some (Entry.symlink (relpathP src (dirnameP dst))) ∧
    resolveRel (dirnameP dst) (relpathP src (dirnameP dst)) = src ∧
    existsFS (linkedFS fs src dst) dst = true ∧
    (∀ p : FPath, p ≠ dst →
      lookupFS (linkedFS fs src dst) p = lookupFS fs p) := by
  have hex : existsFS fs src = true := existsFS_of_lookup_file fs src c h1
  have hparent_ne : dirnameP dst ≠ dst := h4
  have hfirst : atomic_link src dst fs = .ok (true, linkedFS fs src dst) := by
    unfold atomic_link
    rw [hex]
    simp only [not_true_eq_false, Bool.true_eq_false, if_false]
    rcases hdst : lookupFS fs dst with _ | e
    · simp only [Option.isSome_none, Bool.false_eq_true, if_false]
      rw [h3]
      rfl
    · cases e with
      | dir => exact absurd hdst h6
      | file c2 =>
        simp only [Option.isSome_some, if_true]
        rw [lookupFS_removeFS, if_neg hparent_ne, h3]
        simp only [linkedFS]
        rw [insertFS_removeFS]
      | symlink t =>
        simp only [Option.isSome_some, if_true]
        rw [lookupFS_removeFS, if_neg hparent_ne, h3]
        simp only [linkedFS]
        rw [insertFS_removeFS]
  have hlook_dst : lookupFS (linkedFS fs src dst) dst =
      some (Entry.symlink (relpathP src (dirnameP dst))) :=
    lookupFS_insertFS_self _ _ _
  have hlook_other : ∀ p : FPath, p ≠ dst →
      lookupFS (linkedFS fs src dst) p = lookupFS fs p := fun p hp =>
    lookupFS_insertFS_ne _ _ _ _ hp
  have hlook_src : lookupFS (linkedFS fs src dst) src =
      some (Entry.file c) := by
    rw [hlook_other src (fun hs => h2 hs.symm), h1]
  have hres : resolveRel (dirnameP dst) (relpathP src (dirnameP dst)) = src :=
    resolveRel_relpathP src (dirnameP dst) h5
  have hexists_dst : existsFS (linkedFS fs src dst) dst = true := by
    unfold existsFS
    have hlen : (linkedFS fs src dst).length = (removeFS fs dst).length + 1 :=
      by simp [linkedFS, insertFS]
    rw [hlen, resolveE_step, hlook_dst]
    dsimp only
    rw [hres, resolveE_step, hlook_src]
    rfl
  have hsecond : atomic_link src dst (linkedFS fs src dst) =
      .ok (true, linkedFS fs src dst) := by
    unfold atomic_link
    rw [existsFS_of_lookup_file _ _ _ hlook_src]
    simp only [not_true_eq_false, Bool.true_eq_false, if_false]
    rw [hlook_dst]
    simp only [Option.isSome_some, if_true]
    have hrm : removeFS (linkedFS fs src dst) dst = removeFS fs dst := by
      simp only [linkedFS, insertFS]
      rw [removeFS, if_pos rfl, removeFS_idem]
    rw [hrm, lookupFS_removeFS, if_neg hparent_ne, h3]
    simp only [linkedFS]
    rw [insertFS_removeFS]
  exact ⟨hfirst, hsecond, hlook_dst, hres, hexists_dst, hlook_other⟩

theorem C8_amended_idempotent_link_witness :
    atomic_link ["s"] ["d", "l"]
        [(["d"], Entry.dir), (["s"], Entry.file "x")] =
      .ok (true,
        linkedFS [(["d"], Entry.dir), (["s"], Entry.file "x")] ["s"]
          ["d", "l"]) ∧
    atomic_link ["s"] ["d", "l"]
        (linkedFS [(["d"], Entry.dir), (["s"], Entry.file "x")] ["s"]
          ["d", "l"]) =
      .ok (true,
        linkedFS [(["d"], Entry.dir), (["s"], Entry.file "x")] ["s"]
          ["d", "l"]) := by
  have h := C8_amended_idempotent_link
    [(["d"], Entry.dir), (["s"], Entry.file "x")] ["s"] ["d", "l"] "x"
    (by decide) (by decide) (by decide) (by decide) (by decide) (by decide)
  exact ⟨h.1, h.2.1⟩

/-! ## Step-execution lemmas for C4 -/

theorem run_with_retry_raised_iff_exhausted (sc : Nat → Bool)
    (m delay : Nat) :
    ((run_with_retry sc (m + 1) delay).result = RetryResult.raised ↔
      ((List.range (m + 1)).all (fun i => !(sc (i + 1)))) = true) := by
  unfold run_with_retry
  rw [retryLoop_raised_iff]
  constructor
  · intro h
    simp only [List.all_eq_true, List.mem_range]
    intro i hi
    have hfact := h i (by omega)
    have heq : 1 + i = i + 1 := by omega
    rw [heq] at hfact
    simp [hfact]
  · intro h i hi
    have h2 := List.all_eq_true.mp h (i) (List.mem_range.mpr (by omega))
    have heq : 1 + i = i + 1 := by omega
    rw [heq]
    simpa using h2

theorem runSteps_fail_iff (succ : String → Nat → Bool) :
    ∀ cmds : List (String × Nat × Nat),
      (∀ cr ∈ cmds, 1 ≤ cr.2.1) →
      ((runSteps succ cmds).2.isSome = true ↔
        cmds.any (fun cr => cmdExhausted succ cr.1 cr.2.1) = true) := by
  intro cmds
  induction cmds with
  | nil => intro _; simp [runSteps]
  | cons cr rest ih =>
    intro hret
    obtain ⟨c, retries, delay⟩ := cr
    have h1 : 1 ≤ retries := hret (c, retries, delay) (by simp)
    obtain ⟨m, rfl⟩ : ∃ m, retries = m + 1 := ⟨retries - 1, by omega⟩
    have hiff := run_with_retry_raised_iff_exhausted (succ c) m delay
    by_cases hr : (run_with_retry (succ c) (m + 1) delay).result =
        RetryResult.raised
    · have hex : cmdExhausted succ c (m + 1) = true := by
        unfold cmdExhausted
        exact hiff.mp hr
      simp only [runSteps, hr, List.any_cons, hex, Bool.true_or,
        Option.isSome_some]
    · have hex : cmdExhausted succ c (m + 1) = false := by
        unfold cmdExhausted
        rcases Bool.eq_false_or_eq_true
          ((List.range (m + 1)).all (fun i => !(succ c (i + 1)))) with ht | hf
        · exact absurd (hiff.mpr ht) hr
        · exact hf
      have hrest := ih (fun x hx => hret x (by simp [hx]))
      rcases hres : (run_with_retry (succ c) (m + 1) delay).result with _ | _ | _
      · simp only [runSteps, hres, List.any_cons, hex, Bool.false_or]
        exact hrest
      · simp only [runSteps, hres, List.any_cons, hex, Bool.false_or]
        exact hrest
      · exact absurd hres hr

theorem filterMap_okRes_length :
    ∀ l : List (PyResult WOut),
      (l.any (fun r => match r with | PyResult.exn _ => true | _ => false))
        = false →
      (l.filterMap
        (fun r => match r with
          | PyResult.ok w => some w.res
          | _ => none)).length = l.length := by
  intro l
  induction l with
  | nil => intro _; rfl
  | cons r t ih =>
    intro h
    rw [List.any_cons] at h
    cases r with
    | ok w =>
      simp only [Bool.false_or] at h
      simp only [List.filterMap_cons, List.length_cons, ih h]
    | exn m => simp at h

theorem workerFinish_res (folder : String) (runDir : FPath)
    (refName secName demPath : String) (st3 : WState)
    (succ : String → Nat → Bool) (w : WOut)
    (h : workerFinish folder runDir refName secName demPath st3 succ =
      .ok w) :
    isFailRes w.res =
      unitCmds.any (fun cr => cmdExhausted succ cr.1 cr.2.1) := by
  have hret : ∀ cr ∈ unitCmds, 1 ≤ cr.2.1 := by decide
  have hiff := runSteps_fail_iff succ unitCmds hret
  unfold workerFinish at h
  dsimp only at h
  rcases hf : (runSteps succ unitCmds).2 with _ | msg
  · rw [hf] at h
    cases h
    have hnone : (runSteps succ unitCmds).2.isSome = false := by simp [hf]
    simp only [isFailRes]
    rcases Bool.eq_false_or_eq_true
      (unitCmds.any (fun cr => cmdExhausted succ cr.1 cr.2.1)) with ht | hfb
    · rw [hiff.mpr ht] at hnone; cases hnone
    · exact hfb.symm
  · rw [hf] at h
    cases h
    have hsome : (runSteps succ unitCmds).2.isSome = true := by simp [hf]
    simp only [isFailRes]
    exact (hiff.mp hsome).symm

theorem worker_res_char (refName secName demPath : String) (fs0 : FSys)
    (succ : String → Nat → Bool) (w : WOut)
    (h : worker_task refName secName demPath fs0 succ = .ok w) :
    isFailRes w.res =
      unitCmds.any (fun cr => cmdExhausted succ cr.1 cr.2.1) := by
  unfold worker_task at h
  dsimp only at h
  repeat' split at h
  all_goals first
    | exact absurd h (by simp)
    | exact workerFinish_res _ _ _ _ _ _ _ _ h

/-- C4 (counterexample): both required scene source files are missing during
sandbox staging (the filesystem is empty), the links fail — yet the unit's
result is Success, not Failure: staging errors are not converted into a
`Failure` result. -/
theorem C4_counterexample :
    existsFS [] (RAW_P ++ ["r1.SAFE"]) = false ∧
    (RAW_P ++ ["r1.SAFE"], RUNS_P ++ ["run_r1.SAFE_r2.SAFE", "r1.SAFE"],
      false) ∈
      linksOf (worker_task "r1.SAFE" "r2.SAFE" "" [] (fun _ _ => true)) ∧
    resOf (worker_task "r1.SAFE" "r2.SAFE" "" [] (fun _ _ => true)) =
      some WorkerRes.ok := by decide

/-- C4 (amended): the errors converted into a `Failure` result at the unit
boundary are exactly the external-processor retry exhaustions: a unit that
returns at all returns Failure iff some phased invocation failed on every
allowed attempt.  Staging problems do not produce a Failure by themselves —
a missing source or failed link is logged and ignored (counterexample) —
and per-unit Failures do not shrink the pool's result list: a run that exits
0 reports exactly one result per pair. -/
theorem C4_amended_step_errors_only (refName secName demPath : String)
    (fs0 : FSys) (succ : String → Nat → Bool) :
    (resFailBit (worker_task refName secName demPath fs0 succ) = none ∨
     resFailBit (worker_task refName secName demPath fs0 succ) =
       some (unitCmds.any (fun cr => cmdExhausted succ cr.1 cr.2.1))) ∧
    (∀ env : MainEnv, (pymain env).exitCode = 0 →
      (pymain env).results.length =
        (load_pairs_from_file env.pairsFile).length) := by
  constructor
  · rcases hw : worker_task refName secName demPath fs0 succ with w | m
    · right
      simp only [resFailBit]
      rw [worker_res_char refName secName demPath fs0 succ w hw]
    · left
      rfl
  · intro env h0
    unfold pymain at h0 ⊢
    by_cases hkey : pyTruthyStr env.apiKey = true
    · rw [hkey] at h0 ⊢
      simp only [Bool.true_eq_false, not_true_eq_false, if_false] at h0 ⊢
      rcases hprep : prepare_shared_resources env.demBasename (provEnvOf env)
        with ⟨d, evts⟩ | m
      · rw [hprep] at h0
        dsimp only at h0 ⊢
        by_cases hany : (((load_pairs_from_file env.pairsFile).map
            (fun p => worker_task p.1 p.2 d env.workerFS env.stepSucc)).any
            (fun r => match r with | PyResult.exn _ => true | _ => false))
            = true
        · rw [if_pos hany] at h0
          cases h0
        · rw [if_neg hany] at h0 ⊢
          simp only [Bool.not_eq_true] at hany
          dsimp only
          rw [filterMap_okRes_length _ hany, List.length_map]
      · rw [hprep] at h0
        dsimp only at h0
        cases h0
    · simp only [Bool.not_eq_true] at hkey
      rw [hkey] at h0
      simp at h0

theorem C4_amended_step_errors_only_witness :
    resFailBit (worker_task "r1.SAFE" "r2.SAFE" "" [] (fun _ _ => true)) =
      some (unitCmds.any (fun cr =>
        cmdExhausted (fun _ _ => true) cr.1 cr.2.1)) ∧
    (pymain envC10).results.length =
      (load_pairs_from_file envC10.pairsFile).length := by
  constructor
  · rcases (C4_amended_step_errors_only "r1.SAFE" "r2.SAFE" "" []
      (fun _ _ => true)).1 with h | h
    · exact absurd h (by decide)
    · exact h
  · exact (C4_amended_step_errors_only "r1.SAFE" "r2.SAFE" "" []
      (fun _ _ => true)).2 envC10 (by decide)

/-! ## Staging lemmas for C5 -/

theorem lookupFS_mem (fs : FSys) (p : FPath) (e : Entry)
    (h : lookupFS fs p = some e) : (p, e) ∈ fs := by
  induction fs with
  | nil => cases h
  | cons pe t ih =>
    obtain ⟨q, e2⟩ := pe
    rw [lookupFS] at h
    by_cases hq : q = p
    · subst hq
      rw [if_pos rfl] at h
      cases h
      exact List.mem_cons_self _ _
    · rw [if_neg hq] at h
      exact List.mem_cons_of_mem _ (ih h)

theorem lookupFS_eq_none_of_forall (fs : FSys) (p : FPath)
    (h : ∀ pe ∈ fs, pe.1 ≠ p) : lookupFS fs p = none := by
  rcases hl : lookupFS fs p with _ | e
  · rfl
  · exact absurd rfl (h _ (lookupFS_mem fs p e hl))

theorem existsFS_eq_plainExists (fs : FSys) (p : FPath)
    (hns : ∀ t, lookupFS fs p ≠ some (Entry.symlink t)) :
    existsFS fs p = plainExists fs p := by
  rcases hl : lookupFS fs p with _ | e
  · rw [existsFS_of_lookup_none fs p hl]
    simp [plainExists, hl]
  · cases e with
    | file c =>
      rw [existsFS_of_lookup_file fs p c hl]
      simp [plainExists, hl]
    | dir =>
      rw [existsFS_of_lookup_dir fs p hl]
      simp [plainExists, hl]
    | symlink t => exact absurd hl (hns t)

theorem dirnameP_concat (l : FPath) (x : String) :
    dirnameP (l ++ [x]) = l := by
  rw [dirnameP, List.dropLast_concat]

theorem lastComp_concat (l : FPath) (x : String) :
    lastComp (l ++ [x]) = x := by
  rw [lastComp]
  simp [List.getLastD_eq_getLast?]

theorem eq_dirname_append_last (p : FPath) (h : p ≠ []) :
    p = dirnameP p ++ [lastComp p] := by
  have h1 := List.dropLast_append_getLast h
  rw [dirnameP, lastComp]
  rw [List.getLastD_eq_getLast?, List.getLast?_eq_getLast p h]
  exact h1.symm

theorem length_of_dirname (p : FPath) (d : FPath) (hd : dirnameP p = d)
    (hne : d ≠ []) : p.length = d.length + 1 := by
  have hp : p ≠ [] := by
    intro hnil
    subst hnil
    exact hne (by simpa [dirnameP] using hd.symm)
  have := eq_dirname_append_last p hp
  rw [hd] at this
  rw [this]
  simp

theorem not_runDir_prefix_of_dirname (p : FPath) (f : String) (d : FPath)
    (hd : dirnameP p = d) (hlen : d.length = RUNS_P.length)
    (hne : d ≠ RUNS_P) (hdne : d ≠ []) :
    ¬ ((RUNS_P ++ [f]).isPrefixOf p = true) := by
  intro hpre
  have hp : (RUNS_P ++ [f]) <+: p := List.isPrefixOf_iff_prefix.mp hpre
  have hplen : p.length = d.length + 1 := length_of_dirname p d hd hdne
  have heq : RUNS_P ++ [f] = p := hp.eq_of_length (by simp [hplen, hlen])
  rw [← heq, dirnameP_concat] at hd
  exact hne (by rw [← hd])

theorem existsFS_inv_eq_plain (fs0 : FSys) (runDir : FPath) (fs : FSys)
    (hnosym : ∀ pe ∈ fs0, ∀ t, pe.2 ≠ Entry.symlink t)
    (inv : StageInv fs0 runDir fs) (src : FPath)
    (hsrc : ¬ (runDir.isPrefixOf src = true)) :
    existsFS fs src = plainExists fs0 src := by
  have heq : lookupFS fs src = lookupFS fs0 src := inv.outside src hsrc
  have hns : ∀ t, lookupFS fs src ≠ some (Entry.symlink t) := by
    intro t hcon
    rw [heq] at hcon
    exact hnosym _ (lookupFS_mem fs0 src _ hcon) t rfl
  rw [existsFS_eq_plainExists fs src hns]
  simp only [plainExists, heq]

theorem runDir_prefix_concat (runDir : FPath) (x : String) :
    runDir.isPrefixOf (runDir ++ [x]) = true :=
  List.isPrefixOf_iff_prefix.mpr (List.prefix_append runDir [x])

theorem concat_ne_self (runDir : FPath) (x : String) :
    runDir ++ [x] ≠ runDir := by
  intro h
  have := congrArg List.length h
  simp at this

theorem atomic_link_staged (fs0 : FSys) (runDir : FPath) (fs : FSys)
    (hnosym : ∀ pe ∈ fs0, ∀ t, pe.2 ≠ Entry.symlink t)
    (inv : StageInv fs0 runDir fs)
    (src : FPath) (x : String)
    (hsrc : ¬ (runDir.isPrefixOf src = true)) :
    atomic_link src (runDir ++ [x]) fs =
      .ok (plainExists fs0 src,
        if plainExists fs0 src then
          insertFS fs (runDir ++ [x]) (Entry.symlink (relpathP src runDir))
        else fs) ∧
    StageInv fs0 runDir
      (if plainExists fs0 src then
        insertFS fs (runDir ++ [x]) (Entry.symlink (relpathP src runDir))
      else fs) := by
  have hex : existsFS fs src = plainExists fs0 src :=
    existsFS_inv_eq_plain fs0 runDir fs hnosym inv src hsrc
  have hdst_pre := runDir_prefix_concat runDir x
  have hdst_ne := concat_ne_self runDir x
  by_cases hp : plainExists fs0 src = true
  · have hinv2 : StageInv fs0 runDir
        (insertFS fs (runDir ++ [x]) (Entry.symlink (relpathP src runDir))) := by
      constructor
      · intro p hnp
        have hpd : p ≠ runDir ++ [x] := by
          intro hcon
          rw [hcon] at hnp
          exact hnp hdst_pre
        rw [lookupFS_insertFS_ne _ _ _ _ hpd]
        exact inv.outside p hnp
      · rw [lookupFS_insertFS_ne _ _ _ _ (fun h => hdst_ne h.symm)]
        exact inv.rdir
      · intro p hp2 hne
        by_cases hpd : p = runDir ++ [x]
        · subst hpd
          right
          exact ⟨_, lookupFS_insertFS_self _ _ _⟩
        · rw [lookupFS_insertFS_ne _ _ _ _ hpd]
          exact inv.under p hp2 hne
    refine ⟨?_, by rw [if_pos hp]; exact hinv2⟩
    rw [if_pos hp]
    unfold atomic_link
    rw [hex, hp]
    simp only [not_true_eq_false, Bool.true_eq_false, if_false]
    rcases inv.under (runDir ++ [x]) hdst_pre hdst_ne with hu | ⟨t, hu⟩
    · rw [hu]
      simp only [Option.isSome_none, Bool.false_eq_true, if_false]
      rw [dirnameP_concat, inv.rdir]
    · rw [hu]
      simp only [Option.isSome_some, if_true]
      rw [dirnameP_concat, lookupFS_removeFS,
        if_neg (fun h => hdst_ne h.symm), inv.rdir]
      rw [insertFS_removeFS]
  · have hpf : plainExists fs0 src = false := by
      rcases Bool.eq_false_or_eq_true (plainExists fs0 src) with ht | hf
      · exact absurd ht hp
      · exact hf
    refine ⟨?_, by rw [if_neg hp]; exact inv⟩
    rw [if_neg hp]
    unfold atomic_link
    rw [hex, hpf]
    simp

theorem stageSeq_staged (fs0 : FSys) (runDir : FPath)
    (hnosym : ∀ pe ∈ fs0, ∀ t, pe.2 ≠ Entry.symlink t) :
    ∀ (items : List (FPath × FPath)) (st : WState),
      StageInv fs0 runDir st.fs →
      (∀ i ∈ items, ¬ (runDir.isPrefixOf i.1 = true) ∧
        ∃ x, i.2 = runDir ++ [x]) →
      ∃ fs2,
        stageSeq items st =
          .ok ⟨fs2,
            st.links ++ items.map (fun i => (i.1, i.2, plainExists fs0 i.1)),
            st.demWarn⟩ ∧
        StageInv fs0 runDir fs2 := by
  intro items
  induction items with
  | nil =>
    intro st inv _
    exact ⟨st.fs, by simp [stageSeq], inv⟩
  | cons i rest ih =>
    intro st inv hcond
    obtain ⟨s, d⟩ := i
    obtain ⟨hs, x, hx⟩ := hcond (s, d) (by simp)
    subst hx
    obtain ⟨hlink, hinv2⟩ :=
      atomic_link_staged fs0 runDir st.fs hnosym inv s x hs
    have hdo : doLink s (runDir ++ [x]) st =
        .ok ⟨(if plainExists fs0 s then
                insertFS st.fs (runDir ++ [x])
                  (Entry.symlink (relpathP s runDir))
              else st.fs),
             st.links ++ [(s, runDir ++ [x], plainExists fs0 s)],
             st.demWarn⟩ := by
      unfold doLink
      rw [hlink]
    obtain ⟨fs2, hrest, hinvf⟩ := ih
      ⟨(if plainExists fs0 s then
          insertFS st.fs (runDir ++ [x]) (Entry.symlink (relpathP s runDir))
        else st.fs),
       st.links ++ [(s, runDir ++ [x], plainExists fs0 s)], st.demWarn⟩
      hinv2 (fun j hj => hcond j (by simp [hj]))
    refine ⟨fs2, ?_, hinvf⟩
    rw [stageSeq, hdo]
    dsimp only
    rw [hrest]
    simp

theorem demStage_staged (fs0 : FSys) (runDir : FPath) (demPath : String)
    (hnosym : ∀ pe ∈ fs0, ∀ t, pe.2 ≠ Entry.symlink t) :
    ∀ (exts : List String) (st : WState),
      StageInv fs0 runDir st.fs →
      (∀ ext ∈ exts,
        ¬ (runDir.isPrefixOf (toFPath (demPath ++ ext)) = true)) →
      ∃ fs2,
        demStage runDir demPath exts st =
          ⟨fs2,
           st.links ++ exts.filterMap (fun ext =>
             if plainExists fs0 (toFPath (demPath ++ ext)) then
               some (toFPath (demPath ++ ext),
                 runDir ++ [lastComp (toFPath (demPath ++ ext))], true)
             else none),
           st.demWarn ++ exts.filterMap (fun ext =>
             if plainExists fs0 (toFPath (demPath ++ ext)) then none
             else some (demPath ++ ext))⟩ ∧
        StageInv fs0 runDir fs2 := by
  intro exts
  induction exts with
  | nil =>
    intro st inv _
    exact ⟨st.fs, by simp [demStage], inv⟩
  | cons ext rest ih =>
    intro st inv hcond
    have hs := hcond ext (by simp)
    have hex : existsFS st.fs (toFPath (demPath ++ ext)) =
        plainExists fs0 (toFPath (demPath ++ ext)) :=
      existsFS_inv_eq_plain fs0 runDir st.fs hnosym inv _ hs
    by_cases hp : plainExists fs0 (toFPath (demPath ++ ext)) = true
    · obtain ⟨hlink, hinv2⟩ := atomic_link_staged fs0 runDir st.fs hnosym inv
        (toFPath (demPath ++ ext)) (lastComp (toFPath (demPath ++ ext))) hs
      rw [if_pos hp] at hlink hinv2
      rw [hp] at hlink
      obtain ⟨fs2, hrest, hinvf⟩ := ih
        ⟨insertFS st.fs
            (runDir ++ [lastComp (toFPath (demPath ++ ext))])
            (Entry.symlink (relpathP (toFPath (demPath ++ ext)) runDir)),
         st.links ++ [(toFPath (demPath ++ ext),
           runDir ++ [lastComp (toFPath (demPath ++ ext))], true)],
         st.demWarn⟩
        hinv2 (fun j hj => hcond j (by simp [hj]))
      refine ⟨fs2, ?_, hinvf⟩
      rw [demStage, hex]
      rw [if_pos hp, hlink]
      dsimp only
      rw [hrest]
      simp [hp]
    · have hpf : plainExists fs0 (toFPath (demPath ++ ext)) = false := by
        rcases Bool.eq_false_or_eq_true
          (plainExists fs0 (toFPath (demPath ++ ext))) with ht | hf
        · exact absurd ht hp
        · exact hf
      obtain ⟨fs2, hrest, hinvf⟩ := ih
        ⟨st.fs, st.links, st.demWarn ++ [demPath ++ ext]⟩
        inv (fun j hj => hcond j (by simp [hj]))
      refine ⟨fs2, ?_, hinvf⟩
      rw [demStage, hex]
      rw [if_neg (by rw [hpf]; exact Bool.false_ne_true)]
      rw [hrest]
      simp [hpf]

theorem isPrefixOf_self (l : FPath) : l.isPrefixOf l = true :=
  List.isPrefixOf_iff_prefix.mpr (List.prefix_refl l)

theorem plainExists_of_mem (fs : FSys) (pe : FPath × Entry) (h : pe ∈ fs) :
    plainExists fs pe.1 = true := by
  induction fs with
  | nil => cases h
  | cons qe t ih =>
    rcases List.mem_cons.mp h with rfl | hmem
    · simp [plainExists, lookupFS]
    · by_cases hq : qe.1 = pe.1
      · simp [plainExists, lookupFS, hq]
      · simp only [plainExists, lookupFS]
        rw [if_neg hq]
        exact ih hmem

theorem mem_globEOF_elim (fs : FSys) (e : FPath) (h : e ∈ globEOF fs) :
    dirnameP e = ORBIT_P ∧ plainExists fs e = true := by
  unfold globEOF at h
  rcases List.mem_filterMap.mp h with ⟨pe, hmem, hcond⟩
  by_cases hc : (dirnameP pe.1 = ORBIT_P
      && (strEndsWith (lastComp pe.1) ".EOF")) = true
  · rw [if_pos hc] at hcond
    cases hcond
    have hd := (Bool.and_eq_true _ _).mp hc
    refine ⟨of_decide_eq_true hd.1, plainExists_of_mem fs pe hmem⟩
  · rw [if_neg hc] at hcond
    cases hcond

theorem globEOF_cons_rundir (fs0 : FSys) (f : String) :
    globEOF ((RUNS_P ++ [f], Entry.dir) :: fs0) = globEOF fs0 := by
  unfold globEOF
  rw [List.filterMap_cons]
  have h2 : ¬ (dirnameP (RUNS_P ++ [f]) = ORBIT_P) := by
    rw [dirnameP_concat]
    decide
  simp [h2]

/-- C5 (counterexample): a lowercase-extension ephemeris file sits in the
ephemeris directory — it is an ephemeris file by the provisioner's own count
(line 241 globs `*.eof` too) — but the sandbox build stages nothing for it:
the worker globs only `*.EOF`. -/
theorem C5_counterexample :
    (ORBIT_P ++ ["a.eof"]) ∈ ephemerisFilesBothCases fsC5 ∧
    resOf (worker_task "r1.SAFE" "r2.SAFE" "" fsC5 (fun _ _ => true)) =
      some WorkerRes.ok ∧
    ((linksOf (worker_task "r1.SAFE" "r2.SAFE" "" fsC5 (fun _ _ => true))).map
      (fun l => l.1)).contains (ORBIT_P ++ ["a.eof"]) = false := by decide

/-- C5 (amended): when building a sandbox in a fresh run directory over a
symlink-free filesystem (terrain companions named inside the terrain
directory, scene names plain), the `atomic_link` call trace is exactly:
every uppercase-`.EOF` ephemeris file (each staged successfully), the
terrain raster and companions that exist (absent ones warned about, in
order), then both scene inputs (successful iff the source exists).
Lowercase-`.eof` files are not staged (counterexample).  The unit does not
raise during staging. -/
theorem C5_amended_staging_trace (refName secName demPath : String)
    (fs0 : FSys) (succ : String → Nat → Bool)
    (hnosym : ∀ pe ∈ fs0, ∀ t, pe.2 ≠ Entry.symlink t)
    (hnorun : ∀ pe ∈ fs0,
      ¬ ((RUNS_P ++ [folderOf refName secName]).isPrefixOf pe.1 = true))
    (hdemne : demPath ≠ "")
    (hdemdir : ∀ ext ∈ (["", ".xml", ".vrt"] : List String),
      dirnameP (toFPath (demPath ++ ext)) = DEM_P)
    (href : ∃ xr, toFPath refName = [xr])
    (hsec : ∃ xs, toFPath secName = [xs]) :
    linksOf (worker_task refName secName demPath fs0 succ) =
      (globEOF fs0).map (fun e =>
        (e, RUNS_P ++ [folderOf refName secName] ++ [lastComp e], true)) ++
      (["", ".xml", ".vrt"] : List String).filterMap (fun ext =>
        if plainExists fs0 (toFPath (demPath ++ ext)) then
          some (toFPath (demPath ++ ext),
            RUNS_P ++ [folderOf refName secName] ++
              [lastComp (toFPath (demPath ++ ext))], true)
        else none) ++
      [(RAW_P ++ toFPath refName,
        RUNS_P ++ [folderOf refName secName] ++ toFPath refName,
        plainExists fs0 (RAW_P ++ toFPath refName)),
       (RAW_P ++ toFPath secName,
        RUNS_P ++ [folderOf refName secName] ++ toFPath secName,
        plainExists fs0 (RAW_P ++ toFPath secName))] ∧
    demWarnOf (worker_task refName secName demPath fs0 succ) =
      (["", ".xml", ".vrt"] : List String).filterMap (fun ext =>
        if plainExists fs0 (toFPath (demPath ++ ext)) then none
        else some (demPath ++ ext)) ∧
    resOf (worker_task refName secName demPath fs0 succ) ≠ none := by
  obtain ⟨xr, hxr⟩ := href
  obtain ⟨xs, hxs⟩ := hsec
  have hlook0 : lookupFS fs0 (RUNS_P ++ [folderOf refName secName]) = none :=
    lookupFS_eq_none_of_forall _ _ (fun pe hpe hkey =>
      hnorun pe hpe (by rw [hkey]; exact isPrefixOf_self _))
  have hfs0ex : existsFS fs0 (RUNS_P ++ [folderOf refName secName]) = false :=
    existsFS_of_lookup_none _ _ hlook0
  have hfs1 : insertFS fs0 (RUNS_P ++ [folderOf refName secName]) Entry.dir =
      (RUNS_P ++ [folderOf refName secName], Entry.dir) :: fs0 := by
    rw [insertFS, removeFS_of_lookup_none _ _ hlook0]
  have inv0 : StageInv fs0 (RUNS_P ++ [folderOf refName secName])
      ((RUNS_P ++ [folderOf refName secName], Entry.dir) :: fs0) := by
    constructor
    · intro p hnp
      rw [lookupFS, if_neg (fun h => hnp (by rw [← h]; exact isPrefixOf_self _))]
    · rw [lookupFS, if_pos rfl]
    · intro p hp hne
      rw [lookupFS, if_neg (fun h => hne h.symm)]
      left
      exact lookupFS_eq_none_of_forall _ _ (fun pe hpe hkey =>
        hnorun pe hpe (by rw [hkey]; exact hp))
  have hcondEof : ∀ i ∈ (globEOF fs0).map (fun e =>
      (e, RUNS_P ++ [folderOf refName secName] ++ [lastComp e])),
      ¬ ((RUNS_P ++ [folderOf refName secName]).isPrefixOf i.1 = true) ∧
      ∃ x, i.2 = RUNS_P ++ [folderOf refName secName] ++ [x] := by
    intro i hi
    rcases List.mem_map.mp hi with ⟨e, he, rfl⟩
    obtain ⟨hdir, _⟩ := mem_globEOF_elim fs0 e he
    exact ⟨not_runDir_prefix_of_dirname e _ ORBIT_P hdir (by decide)
      (by decide) (by decide), ⟨lastComp e, rfl⟩⟩
  obtain ⟨fsA, hA, hinvA⟩ := stageSeq_staged fs0
    (RUNS_P ++ [folderOf refName secName]) hnosym
    ((globEOF fs0).map (fun e =>
      (e, RUNS_P ++ [folderOf refName secName] ++ [lastComp e])))
    ⟨(RUNS_P ++ [folderOf refName secName], Entry.dir) :: fs0, [], []⟩
    inv0 hcondEof
  dsimp only at hA
  rw [List.nil_append] at hA
  have hmapfuse : List.map (fun i => (i.1, i.2, plainExists fs0 i.1))
      (List.map (fun e =>
        (e, RUNS_P ++ [folderOf refName secName] ++ [lastComp e]))
        (globEOF fs0)) =
      List.map (fun i =>
        (i, RUNS_P ++ [folderOf refName secName] ++ [lastComp i],
          plainExists fs0 i)) (globEOF fs0) := by
    rw [List.map_map]
    rfl
  rw [hmapfuse] at hA
  have hcondDem : ∀ ext ∈ (["", ".xml", ".vrt"] : List String),
      ¬ ((RUNS_P ++ [folderOf refName secName]).isPrefixOf
        (toFPath (demPath ++ ext)) = true) := by
    intro ext hext
    exact not_runDir_prefix_of_dirname _ _ DEM_P (hdemdir ext hext)
      (by decide) (by decide) (by decide)
  obtain ⟨fsB, hB, hinvB⟩ := demStage_staged fs0
    (RUNS_P ++ [folderOf refName secName]) demPath hnosym
    ["", ".xml", ".vrt"]
    ⟨fsA, (globEOF fs0).map (fun i =>
      (i, RUNS_P ++ [folderOf refName secName] ++ [lastComp i],
        plainExists fs0 i)), []⟩
    hinvA hcondDem
  dsimp only at hB
  rw [List.nil_append] at hB
  have hcondSc : ∀ i ∈ [(RAW_P ++ toFPath refName,
      RUNS_P ++ [folderOf refName secName] ++ toFPath refName),
      (RAW_P ++ toFPath secName,
       RUNS_P ++ [folderOf refName secName] ++ toFPath secName)],
      ¬ ((RUNS_P ++ [folderOf refName secName]).isPrefixOf i.1 = true) ∧
      ∃ x, i.2 = RUNS_P ++ [folderOf refName secName] ++ [x] := by
    intro i hi
    rcases List.mem_cons.mp hi with rfl | hi2
    · constructor
      · rw [hxr]
        exact not_runDir_prefix_of_dirname _ _ RAW_P (dirnameP_concat _ _)
          (by decide) (by decide) (by decide)
      · exact ⟨xr, by rw [hxr]⟩
    · rcases List.mem_singleton.mp hi2 with rfl
      constructor
      · rw [hxs]
        exact not_runDir_prefix_of_dirname _ _ RAW_P (dirnameP_concat _ _)
          (by decide) (by decide) (by decide)
      · exact ⟨xs, by rw [hxs]⟩
  obtain ⟨fsC, hC, hinvC⟩ := stageSeq_staged fs0
    (RUNS_P ++ [folderOf refName secName]) hnosym
    [(RAW_P ++ toFPath refName,
      RUNS_P ++ [folderOf refName secName] ++ toFPath refName),
     (RAW_P ++ toFPath secName,
      RUNS_P ++ [folderOf refName secName] ++ toFPath secName)]
    ⟨fsB, (globEOF fs0).map (fun i =>
        (i, RUNS_P ++ [folderOf refName secName] ++ [lastComp i],
          plainExists fs0 i)) ++
      (["", ".xml", ".vrt"] : List String).filterMap (fun ext =>
        if plainExists fs0 (toFPath (demPath ++ ext)) then
          some (toFPath (demPath ++ ext),
            RUNS_P ++ [folderOf refName secName] ++
              [lastComp (toFPath (demPath ++ ext))], true)
        else none),
      (["", ".xml", ".vrt"] : List String).filterMap (fun ext =>
        if plainExists fs0 (toFPath (demPath ++ ext)) then none
        else some (demPath ++ ext))⟩
    hinvB hcondSc
  dsimp only at hC
  have hworker : worker_task refName secName demPath fs0 succ =
      workerFinish (folderOf refName secName)
        (RUNS_P ++ [folderOf refName secName]) refName secName demPath
        ⟨fsC,
         ((globEOF fs0).map (fun i =>
             (i, RUNS_P ++ [folderOf refName secName] ++ [lastComp i],
               plainExists fs0 i)) ++
           (["", ".xml", ".vrt"] : List String).filterMap (fun ext =>
             if plainExists fs0 (toFPath (demPath ++ ext)) then
               some (toFPath (demPath ++ ext),
                 RUNS_P ++ [folderOf refName secName] ++
                   [lastComp (toFPath (demPath ++ ext))], true)
             else none)) ++
           [(RAW_P ++ toFPath refName,
             RUNS_P ++ [folderOf refName secName] ++ toFPath refName,
             plainExists fs0 (RAW_P ++ toFPath refName)),
            (RAW_P ++ toFPath secName,
             RUNS_P ++ [folderOf refName secName] ++ toFPath secName,
             plainExists fs0 (RAW_P ++ toFPath secName))],
         (["", ".xml", ".vrt"] : List String).filterMap (fun ext =>
           if plainExists fs0 (toFPath (demPath ++ ext)) then none
           else some (demPath ++ ext))⟩
        succ := by
    unfold worker_task
    dsimp only
    rw [hfs0ex]
    simp only [Bool.false_eq_true, if_false]
    rw [hfs1, globEOF_cons_rundir, hA]
    dsimp only
    rw [if_pos hdemne, hB, hC]
    rfl
  have heofmap : (globEOF fs0).map (fun i =>
      (i, RUNS_P ++ [folderOf refName secName] ++ [lastComp i],
        plainExists fs0 i)) =
      (globEOF fs0).map (fun e =>
        (e, RUNS_P ++ [folderOf refName secName] ++ [lastComp e], true)) := by
    apply List.map_congr_left
    intro e he
    rw [(mem_globEOF_elim fs0 e he).2]
  rw [heofmap] at hworker
  refine ⟨?_, ?_, ?_⟩
  · rw [hworker]
    unfold workerFinish
    dsimp only
    cases (runSteps succ unitCmds).2 <;> rfl
  · rw [hworker]
    unfold workerFinish
    dsimp only
    cases (runSteps succ unitCmds).2 <;> rfl
  · rw [hworker]
    unfold workerFinish
    dsimp only
    cases (runSteps succ unitCmds).2 <;> simp [resOf]

/-- Witness for C5_amended_staging_trace: on a concrete pre-worker
filesystem the staged links are exactly the one uppercase ephemeris file,
the present terrain raster (the absent sidecars are skipped and warned
about), and both scene inputs (the absent secondary with a failed-link
flag), and the unit still reports a result. -/
theorem C5_amended_staging_trace_witness :
    linksOf (worker_task "r1.SAFE" "r2.SAFE"
        "/root/proj/data/dem/dem_standard.wgs84" fsC5w (fun _ _ => true)) =
      [(["root", "proj", "data", "orbit_data", "a.EOF"],
        ["root", "proj", "data", "runs", "run_r1.SAFE_r2.SAFE", "a.EOF"],
        true),
       (["root", "proj", "data", "dem", "dem_standard.wgs84"],
        ["root", "proj", "data", "runs", "run_r1.SAFE_r2.SAFE",
         "dem_standard.wgs84"], true),
       (["root", "proj", "data", "raw", "r1.SAFE"],
        ["root", "proj", "data", "runs", "run_r1.SAFE_r2.SAFE", "r1.SAFE"],
        true),
       (["root", "proj", "data", "raw", "r2.SAFE"],
        ["root", "proj", "data", "runs", "run_r1.SAFE_r2.SAFE", "r2.SAFE"],
        false)] ∧
    demWarnOf (worker_task "r1.SAFE" "r2.SAFE"
        "/root/proj/data/dem/dem_standard.wgs84" fsC5w (fun _ _ => true)) =
      ["/root/proj/data/dem/dem_standard.wgs84.xml",
       "/root/proj/data/dem/dem_standard.wgs84.vrt"] ∧
    resOf (worker_task "r1.SAFE" "r2.SAFE"
        "/root/proj/data/dem/dem_standard.wgs84" fsC5w
        (fun _ _ => true)) ≠ none := by
  obtain ⟨h1, h2, h3⟩ := C5_amended_staging_trace "r1.SAFE" "r2.SAFE"
    "/root/proj/data/dem/dem_standard.wgs84" fsC5w (fun _ _ => true)
    (by
      intro pe hpe t
      simp only [fsC5w, List.mem_cons, List.mem_singleton] at hpe
      rcases hpe with rfl | rfl | rfl | h <;> simp_all)
    (by decide) (by decide) (by decide)
    ⟨"r1.SAFE", by decide⟩ ⟨"r2.SAFE", by decide⟩
  refine ⟨?_, ?_, h3⟩
  · rw [h1]; decide
  · rw [h2]; decide
